import Mathlib

/-!
Verification development for a single-line regex matcher (Rust sources
`src/regex_matcher.rs`, `src/main.rs`).

The embedding translates the two-stage pipeline of the source:
a compiler `parse_pattern : String -> Vec<Pattern>` and a matcher built from
`match_pattern`, `match_from_current_position`, `match_subpattern`,
`match_literal`, `match_class` and `extract_captured`, with a capture table
`HashMap<usize, String>`.

Modelling conventions:
* Strings and iterators (`Peekable<Chars>`) become `List Char`; a cursor is the
  list of remaining characters.
* The capture table becomes an association list whose insert removes the old
  binding first, so `List.length` coincides with `HashMap::len` (number of
  distinct keys).
* Both the parser and the matcher in the source contain loops whose Lean
  translation is not structurally recursive (nested groups in the parser; the
  greedy `while` loop of `OneOrMore`, which diverges in the source on patterns
  such as `(a?)+`).  Each recursive function therefore takes a fuel argument
  and is structurally recursive on it, so that every definition is computable
  and reduces inside the kernel.  The matcher returns `none` exactly when the
  fuel is exhausted, i.e. `some` results are the runs the Rust program
  actually completes.  The parser gets a fuel that is large enough for every
  input (quadratic in the pattern length); fuel exhaustion there returns `[]`.
* Functions that mutate `&mut` arguments are translated to functions
  returning the new values of those arguments.  `match_subpattern` and
  `match_from_current_position` return `(matched, cursor, captures)`; on
  failure the returned cursor reproduces the source behaviour of leaving the
  caller's `input_chars` untouched.
-/

/-- The `Pattern` enum of the source (`regex_matcher.rs`, lines 6-20). -/
inductive Pattern where
  | Literal (s : List Char)
  | Digit
  | Alphanumeric
  | AnyChar
  | Start
  | End
  | CharGroup (chars : List Char) (is_negative : Bool)
  | OneOrMore (p : Pattern)
  | ZeroOrOne (p : Pattern)
  | Alternation (alternatives : List Pattern)
  | Group (subpatterns : List Pattern)
  | BackReference (n : Nat)

/-- The capture table `HashMap<usize, String>`: an association list from group
index to captured text.  All tables reachable from the empty one have distinct
keys (see `capsInsert`), so `List.length` models `HashMap::len`. -/
abbrev Caps := List (Nat × List Char)

/-- `captured_groups.get(&group_num)` -/
def capsGet (caps : Caps) (k : Nat) : Option (List Char) :=
  (caps.find? (fun p => p.1 == k)).map (fun p => p.2)

/-- `captured_groups.insert(group_num, captured)`: a `HashMap` insert replaces
any existing binding of the key. -/
def capsInsert (caps : Caps) (k : Nat) (v : List Char) : Caps :=
  (k, v) :: caps.eraseP (fun p => p.1 == k)

/-! ## The compiler (`parse_pattern`, lines 71-283) -/

/-- The pending-literal buffer flush that precedes every special construct
(`if !literal_buffer.is_empty() { patterns.push(Literal(..)); ... }`).
The accumulator and the buffer are kept in reverse order. -/
def flushBuffer (buffer : List Char) (acc : List Pattern) : List Pattern :=
  if buffer.isEmpty then acc else .Literal buffer.reverse :: acc

/-- The scan of a character class body (lines 144-150): characters up to the
first `]` (the `]` is dropped); an unterminated class consumes to the end.
Returns the class members and the remaining input. -/
def scanBracket : List Char → (List Char × List Char)
  | [] => ([], [])
  | c :: rest =>
    if c = ']' then ([], rest)
    else
      let (group, r) := scanBracket rest
      (c :: group, r)

/-- The depth-tracking scan for the text of a `(...)` group (lines 160-175):
called just after the `(` with depth 1; inner `(`/`)` are kept, the matching
`)` is dropped; an unterminated group consumes to the end.  Returns the group
text and the remaining input. -/
def scanGroup : List Char → Nat → (List Char × List Char)
  | [], _ => ([], [])
  | c :: rest, depth =>
    if c = '(' then
      let (g, r) := scanGroup rest (depth + 1)
      ('(' :: g, r)
    else if c = ')' then
      if depth = 1 then ([], rest)
      else
        let (g, r) := scanGroup rest (depth - 1)
        (')' :: g, r)
    else
      let (g, r) := scanGroup rest depth
      (c :: g, r)

/-- The splitting loop of `parse_group_pattern` (lines 251-280): split the
group body on depth-0 `|`.  The depth is an `i32` in the source and may go
negative, hence `Int`.  A piece produced by a `|` is pushed even when empty;
the final piece is pushed only when non-empty.  `current` is kept reversed. -/
def splitAlternatives : List Char → Int → List Char → List (List Char) → List (List Char)
  | [], _, current, acc =>
    if current.isEmpty then acc.reverse else acc.reverse ++ [current.reverse]
  | c :: rest, depth, current, acc =>
    if c = '(' then splitAlternatives rest (depth + 1) (c :: current) acc
    else if c = ')' then splitAlternatives rest (depth - 1) (c :: current) acc
    else if c = '|' then
      if depth = 0 then splitAlternatives rest depth [] (current.reverse :: acc)
      else splitAlternatives rest depth (c :: current) acc
    else splitAlternatives rest depth (c :: current) acc

mutual

/-- The main scanning loop of `parse_pattern` (lines 76-240), with the
remaining input, the pending literal buffer (reversed) and the emitted nodes
(reversed) as explicit state.  The first argument is fuel (see the header);
`parse_pattern` supplies a fuel that always suffices. -/
def parsePatternGo : Nat → List Char → List Char → List Pattern → List Pattern
  | 0, _, _, _ => []
  | _ + 1, [], buffer, acc => (flushBuffer buffer acc).reverse
  | fuel + 1, c :: rest, buffer, acc =>
    if c = '\\' then
      match rest with
      | d :: rest2 =>
        if d.isDigit then
          parsePatternGo fuel rest2 []
            (.BackReference (d.toNat - '0'.toNat) :: flushBuffer buffer acc)
        else
          let p : Pattern :=
            if d = 'd' then .Digit
            else if d = 'w' then .Alphanumeric
            else if d = '\\' then .Literal ['\\']
            else .Literal [d]
          parsePatternGo fuel rest2 [] (p :: flushBuffer buffer acc)
      | [] => parsePatternGo fuel [] [] (flushBuffer buffer acc)
    else if c = '.' then
      parsePatternGo fuel rest [] (.AnyChar :: flushBuffer buffer acc)
    else if c = '^' then
      parsePatternGo fuel rest [] (.Start :: flushBuffer buffer acc)
    else if c = '$' then
      parsePatternGo fuel rest [] (.End :: flushBuffer buffer acc)
    else if c = '[' then
      let flushed := flushBuffer buffer acc
      let is_negative : Bool := rest.head? == some '^'
      let rest1 := if is_negative then rest.tail else rest
      let (group, rest2) := scanBracket rest1
      parsePatternGo fuel rest2 [] (.CharGroup group is_negative :: flushed)
    else if c = '(' then
      let flushed := flushBuffer buffer acc
      let (group_pattern, rest2) := scanGroup rest 1
      parsePatternGo fuel rest2 [] (.Group (parse_group_pattern fuel group_pattern) :: flushed)
    else if c = '|' then
      parsePatternGo fuel rest [] (.Literal ['|'] :: flushBuffer buffer acc)
    else if c = '+' then
      match buffer with
      | [] =>
        match acc with
        | last :: acc2 => parsePatternGo fuel rest [] (.OneOrMore last :: acc2)
        | [] => parsePatternGo fuel rest [] [.Literal ['+']]
      | [b] => parsePatternGo fuel rest [] (.OneOrMore (.Literal [b]) :: acc)
      | b :: bs =>
        parsePatternGo fuel rest [] (.OneOrMore (.Literal [b]) :: .Literal bs.reverse :: acc)
    else if c = '?' then
      match buffer with
      | [] =>
        match acc with
        | last :: acc2 => parsePatternGo fuel rest [] (.ZeroOrOne last :: acc2)
        | [] => parsePatternGo fuel rest [] [.Literal ['?']]
      | [b] => parsePatternGo fuel rest [] (.ZeroOrOne (.Literal [b]) :: acc)
      | b :: bs =>
        parsePatternGo fuel rest [] (.ZeroOrOne (.Literal [b]) :: .Literal bs.reverse :: acc)
    else
      parsePatternGo fuel rest (c :: buffer) acc

/-- `parse_group_pattern` (lines 250-283): split the group body on top-level
`|`, compile each piece, wrap each piece in `Group`, and return the single
`Alternation` node. -/
def parse_group_pattern : Nat → List Char → List Pattern
  | 0, _ => []
  | fuel + 1, group_pattern =>
    [.Alternation (groupAlternatives fuel (splitAlternatives group_pattern 0 [] []))]

/-- The per-piece compilation inside `parse_group_pattern`:
`alternatives.push(Pattern::Group(parse_pattern(&current)))`. -/
def groupAlternatives : Nat → List (List Char) → List Pattern
  | 0, _ => []
  | _ + 1, [] => []
  | fuel + 1, piece :: rest =>
    .Group (parsePatternGo fuel piece [] []) :: groupAlternatives fuel rest

end

/-- Fuel that always suffices for `parsePatternGo`: along any call path the
fuel spent at one nesting level is at most the level's input length plus two,
and the lengths decrease strictly with the nesting level. -/
def parseFuel (cs : List Char) : Nat := (cs.length + 2) * (cs.length + 2)

/-- `parse_pattern` (lines 71-248). -/
def parse_pattern (cs : List Char) : List Pattern :=
  parsePatternGo (parseFuel cs) cs [] []

/-! ## The matcher -/

/-- Rust `char::is_alphanumeric`, modelled on the ASCII range (the full
Unicode tables are out of scope of this embedding; every input considered in
this development is ASCII). -/
def isAlphanumericChar (c : Char) : Bool := c.isAlphanum

/-- `match_literal` (lines 300-308): consume the literal character by
character; `some rest` on success, `none` on any mismatch or premature end of
input (the partial consumption of the source's iterator on failure is never
observable, since every caller discards the cursor on failure). -/
def match_literal : List Char → List Char → Option (List Char)
  | [], input => some input
  | _ :: _, [] => none
  | l :: ls, c :: cs => if c = l then match_literal ls cs else none

/-- `match_class` (lines 285-298): single-character class tests, consuming
exactly one character on success; `Start`/`End` return `true` without
consuming; every other node kind returns `false`. -/
def match_class (pattern : Pattern) (input_chars : List Char) : Option (List Char) :=
  match pattern, input_chars with
  | .Digit, c :: rest => if c.isDigit then some rest else none
  | .Digit, [] => none
  | .Alphanumeric, c :: rest => if isAlphanumericChar c then some rest else none
  | .Alphanumeric, [] => none
  | .AnyChar, _ :: rest => some rest
  | .AnyChar, [] => none
  | .CharGroup group is_negative, c :: rest =>
    if group.contains c != is_negative then some rest else none
  | .CharGroup _ _, [] => none
  | .Start, input => some input
  | .End, input => some input
  | _, _ => none

/-- `extract_captured` (lines 506-516): the text consumed between two cursor
positions, as the length-difference prefix (byte lengths in the source; since
`after` is always a suffix of `before`, character counts agree). -/
def extract_captured (before after : List Char) : List Char :=
  if after.length ≤ before.length then before.take (before.length - after.length)
  else []

mutual

/-- `match_subpattern` (lines 310-378).  Returns `(matched, cursor, caps)`;
on failure the cursor equals the input (`*input_chars` is only assigned when
`matched`).  The source's `current_group : Option<usize>` parameter is dead
(threaded but never read) and is omitted.  Note two source quirks kept here:
the capture index of a `Group` is computed from the table size *before* its
body runs (line 323), and the `Alternation` arm's early `return true`
(line 352) skips the `*input_chars = input_clone` assignment, so a successful
alternation commits captures but not the cursor. -/
def match_subpattern : Nat → Pattern → List Char → Caps → Option (Bool × List Char × Caps)
  | 0, _, _, _ => none
  | fuel + 1, pattern, input_chars, captured_groups =>
    match pattern with
    | .Literal lit =>
      match match_literal lit input_chars with
      | some rest => some (true, rest, captured_groups)
      | none => some (false, input_chars, captured_groups)
    | .Digit | .Alphanumeric | .AnyChar | .CharGroup _ _ =>
      match match_class pattern input_chars with
      | some rest => some (true, rest, captured_groups)
      | none => some (false, input_chars, captured_groups)
    | .Group subpatterns =>
      let group_num := captured_groups.length + 1
      match match_from_current_position fuel input_chars subpatterns true false captured_groups with
      | none => none
      | some (true, after, caps2) =>
        some (true, after, capsInsert caps2 group_num (extract_captured input_chars after))
      | some (false, _, caps2) => some (false, input_chars, caps2)
    | .Alternation alternatives =>
      subpatternAlternatives fuel alternatives input_chars captured_groups
    | .BackReference group_num =>
      match capsGet captured_groups group_num with
      | some captured =>
        match match_literal captured input_chars with
        | some rest => some (true, rest, captured_groups)
        | none => some (false, input_chars, captured_groups)
      | none => some (false, input_chars, captured_groups)
    | _ => some (false, input_chars, captured_groups)

/-- The branch loop of `match_subpattern`'s `Alternation` arm (lines 337-357):
each branch runs on clones; the first success commits the captures and
returns early — skipping, in the source, the cursor write-back. -/
def subpatternAlternatives : Nat → List Pattern → List Char → Caps → Option (Bool × List Char × Caps)
  | 0, _, _, _ => none
  | fuel + 1, alternatives, input_chars, captured_groups =>
    match alternatives with
    | [] => some (false, input_chars, captured_groups)
    | alt :: rest =>
      match match_subpattern fuel alt input_chars captured_groups with
      | none => none
      | some (true, _, caps2) => some (true, input_chars, caps2)
      | some (false, _, _) => subpatternAlternatives fuel rest input_chars captured_groups

/-- `match_from_current_position` (lines 380-504): walk the node list against
the cursor.  `first` models `i == 0` and `rest.isEmpty` models
`i == patterns.len() - 1`.  On failure the returned cursor is the cursor at
the failing node; no caller uses it (the source leaves the caller's
`input_chars` untouched on failure), while the capture table is returned as
mutated, exactly as the source's `&mut` table. -/
def match_from_current_position :
    Nat → List Char → List Pattern → Bool → Bool → Caps → Option (Bool × List Char × Caps)
  | 0, _, _, _, _, _ => none
  | fuel + 1, cursor, patterns, first, is_start, caps =>
    match patterns with
    | [] => some (true, cursor, caps)
    | p :: rest =>
      match p with
      | .Literal lit =>
        match match_literal lit cursor with
        | some cur2 => match_from_current_position fuel cur2 rest false is_start caps
        | none => some (false, cursor, caps)
      | .Start =>
        if first && is_start then match_from_current_position fuel cursor rest false is_start caps
        else some (false, cursor, caps)
      | .End =>
        if rest.isEmpty && cursor.isEmpty then
          match_from_current_position fuel cursor rest false is_start caps
        else some (false, cursor, caps)
      | .OneOrMore sub =>
        match match_subpattern fuel sub cursor caps with
        | none => none
        | some (false, _, caps2) => some (false, cursor, caps2)
        | some (true, cur2, caps2) =>
          match oneOrMoreLoop fuel sub cur2 caps2 with
          | none => none
          | some (cur3, caps3) => match_from_current_position fuel cur3 rest false is_start caps3
      | .ZeroOrOne sub =>
        match match_subpattern fuel sub cursor caps with
        | none => none
        | some (_, cur2, caps2) => match_from_current_position fuel cur2 rest false is_start caps2
      | .Group subpatterns =>
        match match_from_current_position fuel cursor subpatterns true false caps with
        | none => none
        | some (true, cur2, caps2) => match_from_current_position fuel cur2 rest false is_start caps2
        | some (false, _, caps2) => some (false, cursor, caps2)
      | .Alternation alternatives =>
        match positionAlternatives fuel alternatives cursor caps with
        | none => none
        | some (true, cur2, caps2) => match_from_current_position fuel cur2 rest false is_start caps2
        | some (false, _, _) => some (false, cursor, caps)
      | .BackReference _ =>
        match match_subpattern fuel p cursor caps with
        | none => none
        | some (true, cur2, caps2) => match_from_current_position fuel cur2 rest false is_start caps2
        | some (false, _, caps2) => some (false, cursor, caps2)
      | _ =>
        match match_class p cursor with
        | some cur2 => match_from_current_position fuel cur2 rest false is_start caps
        | none => some (false, cursor, caps)

/-- The branch loop of the `Alternation` arm of `match_from_current_position`
(lines 456-478): branches run on clones of the cursor and the capture table;
the first success commits both; failing branches leak nothing. -/
def positionAlternatives : Nat → List Pattern → List Char → Caps → Option (Bool × List Char × Caps)
  | 0, _, _, _ => none
  | fuel + 1, alternatives, cursor, caps =>
    match alternatives with
    | [] => some (false, cursor, caps)
    | alt :: rest =>
      match match_subpattern fuel alt cursor caps with
      | none => none
      | some (true, cur2, caps2) => some (true, cur2, caps2)
      | some (false, _, _) => positionAlternatives fuel rest cursor caps

/-- The greedy `while match_subpattern(..) {}` loop of the `OneOrMore` arm
(lines 422-429): keep re-attempting `sub` at the advancing cursor until it
fails; the failing final attempt's capture mutations persist.  This is the
loop that can diverge in the source; `none` marks fuel exhaustion. -/
def oneOrMoreLoop : Nat → Pattern → List Char → Caps → Option (List Char × Caps)
  | 0, _, _, _ => none
  | fuel + 1, sub, cursor, caps =>
    match match_subpattern fuel sub cursor caps with
    | none => none
    | some (false, _, caps2) => some (cursor, caps2)
    | some (true, cur2, caps2) => oneOrMoreLoop fuel sub cur2 caps2

end

/-- `matches!(patterns.first(), Some(Pattern::Start))` (line 524). -/
def starts_with_anchor (patterns : List Pattern) : Bool :=
  match patterns.head? with
  | some .Start => true
  | _ => false

/-- `matches!(patterns.last(), Some(Pattern::End))` (line 525). -/
def ends_with_anchor (patterns : List Pattern) : Bool :=
  match patterns.getLast? with
  | some .End => true
  | _ => false

/-- The offset loop of the no-anchor branch of `match_pattern`
(lines 560-576): while at least one character remains, attempt the sequence
at the current suffix with a clone of the (never-mutated) top-level capture
table; the first success wins; otherwise drop one character and retry.  The
loop body never runs on the empty remainder. -/
def searchNoAnchor (fuel : Nat) (patterns : List Pattern) : List Char → Caps → Option Bool
  | [], _ => some false
  | c :: rest, caps =>
    match match_from_current_position fuel (c :: rest) patterns true false caps with
    | none => none
    | some (true, _, _) => some true
    | some (false, _, _) => searchNoAnchor fuel patterns rest caps

/-- The offset loop of the end-anchor branch of `match_pattern`
(lines 543-559): like `searchNoAnchor`, but an offset wins only when the
sequence succeeds with the whole remaining input consumed. -/
def searchEndAnchor (fuel : Nat) (patterns : List Pattern) : List Char → Caps → Option Bool
  | [], _ => some false
  | c :: rest, caps =>
    match match_from_current_position fuel (c :: rest) patterns true false caps with
    | none => none
    | some (true, cur, _) =>
      if cur.isEmpty then some true else searchEndAnchor fuel patterns rest caps
    | some (false, _, _) => searchEndAnchor fuel patterns rest caps

/-- `match_pattern` (lines 518-580): compile, then dispatch on anchor
presence.  The source's both-anchors branch and start-only branch are
literally identical (a single anchored attempt at position 0). -/
def match_pattern (fuel : Nat) (input_line pattern_str : String) : Option Bool :=
  let patterns := parse_pattern pattern_str.toList
  let input_chars := input_line.toList
  if starts_with_anchor patterns && ends_with_anchor patterns then
    (match_from_current_position fuel input_chars patterns true true []).map (fun r => r.1)
  else if starts_with_anchor patterns then
    (match_from_current_position fuel input_chars patterns true true []).map (fun r => r.1)
  else if ends_with_anchor patterns then
    searchEndAnchor fuel patterns input_chars []
  else
    searchNoAnchor fuel patterns input_chars []

/-- A run of the node-sequence walker that terminates (for some fuel) with
result `r = (matched, final cursor, final captures)`. -/
def SeqRuns (cursor : List Char) (patterns : List Pattern) (first is_start : Bool)
    (caps : Caps) (r : Bool × List Char × Caps) : Prop :=
  ∃ fuel, match_from_current_position fuel cursor patterns first is_start caps = some r

/-- A top-level match that terminates (for some fuel) with boolean `b`. -/
def Matches (input_line pattern_str : String) (b : Bool) : Prop :=
  ∃ fuel, match_pattern fuel input_line pattern_str = some b

-- Sanity checks of the embedding on the concrete scenarios of the spec
-- (§8); these also exercise kernel reduction of the fuel-indexed functions.
example : match_pattern 100 "abc123" "\\d+" = some true := by decide
example : match_pattern 100 "123abc" "^\\d+$" = some false := by decide
example : match_pattern 100 "x" "[^xyz]" = some false := by decide
example : match_pattern 100 "a" "[^xyz]" = some true := by decide
example : match_pattern 100 "I have a dog" "(cat|dog)" = some true := by decide
example : match_pattern 200 "hello hello" "(\\w+) \\1" = some true := by decide
example : match_pattern 200 "hello world" "(\\w+) \\1" = some false := by decide
example : match_pattern 100 "b" "a?b" = some true := by decide
example : match_pattern 100 "ab" "a?b" = some true := by decide
-- Note: the spec's scenario table expects false here, but the code matches
-- at offset 1 (`a?` skips, `b` matches the final character), so the result
-- is true; no frozen claim covers this scenario.
example : match_pattern 100 "cb" "a?b" = some true := by decide

/-! ## Basic lemmas -/

/-- `match_literal` succeeds exactly when the literal is a prefix of the
input, and then consumes exactly the literal. -/
theorem match_literal_eq_some_iff (lit : List Char) :
    ∀ input rest, match_literal lit input = some rest ↔ input = lit ++ rest := by
  induction lit with
  | nil => intro input rest; simp [match_literal]
  | cons l ls ih =>
    intro input rest
    cases input with
    | nil => simp [match_literal]
    | cons c cs =>
      simp only [match_literal]
      by_cases hc : c = l
      · simp [hc, ih]
      · simp [hc, Ne.symm hc]


/-! ## Step lemmas

One-step unfolding equations for the fuel-indexed matcher, proved by `rfl`.
All later proofs rewrite with these small equations instead of unfolding the
full mutual definitions. -/

theorem subpat_zero (p : Pattern) (i : List Char) (caps : Caps) :
    match_subpattern 0 p i caps = none := rfl

theorem subpat_literal (fuel : Nat) (lit i : List Char) (caps : Caps) :
    match_subpattern (fuel + 1) (.Literal lit) i caps =
      match match_literal lit i with
      | some rest => some (true, rest, caps)
      | none => some (false, i, caps) := rfl

theorem subpat_digit (fuel : Nat) (i : List Char) (caps : Caps) :
    match_subpattern (fuel + 1) .Digit i caps =
      match match_class .Digit i with
      | some rest => some (true, rest, caps)
      | none => some (false, i, caps) := rfl

theorem subpat_alphanumeric (fuel : Nat) (i : List Char) (caps : Caps) :
    match_subpattern (fuel + 1) .Alphanumeric i caps =
      match match_class .Alphanumeric i with
      | some rest => some (true, rest, caps)
      | none => some (false, i, caps) := rfl

theorem subpat_anychar (fuel : Nat) (i : List Char) (caps : Caps) :
    match_subpattern (fuel + 1) .AnyChar i caps =
      match match_class .AnyChar i with
      | some rest => some (true, rest, caps)
      | none => some (false, i, caps) := rfl

theorem subpat_chargroup (fuel : Nat) (chars : List Char) (neg : Bool) (i : List Char)
    (caps : Caps) :
    match_subpattern (fuel + 1) (.CharGroup chars neg) i caps =
      match match_class (.CharGroup chars neg) i with
      | some rest => some (true, rest, caps)
      | none => some (false, i, caps) := rfl

theorem subpat_group (fuel : Nat) (subs : List Pattern) (i : List Char) (caps : Caps) :
    match_subpattern (fuel + 1) (.Group subs) i caps =
      match match_from_current_position fuel i subs true false caps with
      | none => none
      | some (true, after, caps2) =>
        some (true, after, capsInsert caps2 (caps.length + 1) (extract_captured i after))
      | some (false, _, caps2) => some (false, i, caps2) := rfl

theorem subpat_alternation (fuel : Nat) (alts : List Pattern) (i : List Char) (caps : Caps) :
    match_subpattern (fuel + 1) (.Alternation alts) i caps =
      subpatternAlternatives fuel alts i caps := rfl

theorem subpat_backreference (fuel : Nat) (n : Nat) (i : List Char) (caps : Caps) :
    match_subpattern (fuel + 1) (.BackReference n) i caps =
      match capsGet caps n with
      | some captured =>
        match match_literal captured i with
        | some rest => some (true, rest, caps)
        | none => some (false, i, caps)
      | none => some (false, i, caps) := rfl

theorem subpat_start (fuel : Nat) (i : List Char) (caps : Caps) :
    match_subpattern (fuel + 1) .Start i caps = some (false, i, caps) := rfl

theorem subpat_end (fuel : Nat) (i : List Char) (caps : Caps) :
    match_subpattern (fuel + 1) .End i caps = some (false, i, caps) := rfl

theorem subpat_oneormore (fuel : Nat) (sub : Pattern) (i : List Char) (caps : Caps) :
    match_subpattern (fuel + 1) (.OneOrMore sub) i caps = some (false, i, caps) := rfl

theorem subpat_zeroorone (fuel : Nat) (sub : Pattern) (i : List Char) (caps : Caps) :
    match_subpattern (fuel + 1) (.ZeroOrOne sub) i caps = some (false, i, caps) := rfl

theorem subalts_zero (alts : List Pattern) (i : List Char) (caps : Caps) :
    subpatternAlternatives 0 alts i caps = none := rfl

theorem subalts_nil (fuel : Nat) (i : List Char) (caps : Caps) :
    subpatternAlternatives (fuel + 1) [] i caps = some (false, i, caps) := rfl

theorem subalts_cons (fuel : Nat) (a : Pattern) (rest : List Pattern) (i : List Char)
    (caps : Caps) :
    subpatternAlternatives (fuel + 1) (a :: rest) i caps =
      match match_subpattern fuel a i caps with
      | none => none
      | some (true, _, caps2) => some (true, i, caps2)
      | some (false, _, _) => subpatternAlternatives fuel rest i caps := rfl

theorem mfcp_zero (cursor : List Char) (patterns : List Pattern) (first is_start : Bool)
    (caps : Caps) :
    match_from_current_position 0 cursor patterns first is_start caps = none := rfl

theorem mfcp_nil (fuel : Nat) (cursor : List Char) (first is_start : Bool) (caps : Caps) :
    match_from_current_position (fuel + 1) cursor [] first is_start caps =
      some (true, cursor, caps) := rfl

theorem mfcp_literal (fuel : Nat) (cursor : List Char) (lit : List Char) (rest : List Pattern)
    (first is_start : Bool) (caps : Caps) :
    match_from_current_position (fuel + 1) cursor (.Literal lit :: rest) first is_start caps =
      match match_literal lit cursor with
      | some cur2 => match_from_current_position fuel cur2 rest false is_start caps
      | none => some (false, cursor, caps) := rfl

theorem mfcp_start (fuel : Nat) (cursor : List Char) (rest : List Pattern)
    (first is_start : Bool) (caps : Caps) :
    match_from_current_position (fuel + 1) cursor (.Start :: rest) first is_start caps =
      if first && is_start then match_from_current_position fuel cursor rest false is_start caps
      else some (false, cursor, caps) := rfl

theorem mfcp_end (fuel : Nat) (cursor : List Char) (rest : List Pattern)
    (first is_start : Bool) (caps : Caps) :
    match_from_current_position (fuel + 1) cursor (.End :: rest) first is_start caps =
      if rest.isEmpty && cursor.isEmpty then
        match_from_current_position fuel cursor rest false is_start caps
      else some (false, cursor, caps) := rfl

theorem mfcp_oneormore (fuel : Nat) (cursor : List Char) (sub : Pattern) (rest : List Pattern)
    (first is_start : Bool) (caps : Caps) :
    match_from_current_position (fuel + 1) cursor (.OneOrMore sub :: rest) first is_start caps =
      match match_subpattern fuel sub cursor caps with
      | none => none
      | some (false, _, caps2) => some (false, cursor, caps2)
      | some (true, cur2, caps2) =>
        match oneOrMoreLoop fuel sub cur2 caps2 with
        | none => none
        | some (cur3, caps3) => match_from_current_position fuel cur3 rest false is_start caps3 := rfl

theorem mfcp_zeroorone (fuel : Nat) (cursor : List Char) (sub : Pattern) (rest : List Pattern)
    (first is_start : Bool) (caps : Caps) :
    match_from_current_position (fuel + 1) cursor (.ZeroOrOne sub :: rest) first is_start caps =
      match match_subpattern fuel sub cursor caps with
      | none => none
      | some (_, cur2, caps2) => match_from_current_position fuel cur2 rest false is_start caps2 := rfl

theorem mfcp_group (fuel : Nat) (cursor : List Char) (subs rest : List Pattern)
    (first is_start : Bool) (caps : Caps) :
    match_from_current_position (fuel + 1) cursor (.Group subs :: rest) first is_start caps =
      match match_from_current_position fuel cursor subs true false caps with
      | none => none
      | some (true, cur2, caps2) => match_from_current_position fuel cur2 rest false is_start caps2
      | some (false, _, caps2) => some (false, cursor, caps2) := rfl

theorem mfcp_alternation (fuel : Nat) (cursor : List Char) (alts rest : List Pattern)
    (first is_start : Bool) (caps : Caps) :
    match_from_current_position (fuel + 1) cursor (.Alternation alts :: rest) first is_start caps =
      match positionAlternatives fuel alts cursor caps with
      | none => none
      | some (true, cur2, caps2) => match_from_current_position fuel cur2 rest false is_start caps2
      | some (false, _, _) => some (false, cursor, caps) := rfl

theorem mfcp_backreference (fuel : Nat) (cursor : List Char) (n : Nat) (rest : List Pattern)
    (first is_start : Bool) (caps : Caps) :
    match_from_current_position (fuel + 1) cursor (.BackReference n :: rest) first is_start caps =
      match match_subpattern fuel (.BackReference n) cursor caps with
      | none => none
      | some (true, cur2, caps2) => match_from_current_position fuel cur2 rest false is_start caps2
      | some (false, _, caps2) => some (false, cursor, caps2) := rfl

theorem mfcp_digit (fuel : Nat) (cursor : List Char) (rest : List Pattern)
    (first is_start : Bool) (caps : Caps) :
    match_from_current_position (fuel + 1) cursor (.Digit :: rest) first is_start caps =
      match match_class .Digit cursor with
      | some cur2 => match_from_current_position fuel cur2 rest false is_start caps
      | none => some (false, cursor, caps) := rfl

theorem mfcp_alphanumeric (fuel : Nat) (cursor : List Char) (rest : List Pattern)
    (first is_start : Bool) (caps : Caps) :
    match_from_current_position (fuel + 1) cursor (.Alphanumeric :: rest) first is_start caps =
      match match_class .Alphanumeric cursor with
      | some cur2 => match_from_current_position fuel cur2 rest false is_start caps
      | none => some (false, cursor, caps) := rfl

theorem mfcp_anychar (fuel : Nat) (cursor : List Char) (rest : List Pattern)
    (first is_start : Bool) (caps : Caps) :
    match_from_current_position (fuel + 1) cursor (.AnyChar :: rest) first is_start caps =
      match match_class .AnyChar cursor with
      | some cur2 => match_from_current_position fuel cur2 rest false is_start caps
      | none => some (false, cursor, caps) := rfl

theorem mfcp_chargroup (fuel : Nat) (cursor : List Char) (chars : List Char) (neg : Bool)
    (rest : List Pattern) (first is_start : Bool) (caps : Caps) :
    match_from_current_position (fuel + 1) cursor (.CharGroup chars neg :: rest) first is_start caps =
      match match_class (.CharGroup chars neg) cursor with
      | some cur2 => match_from_current_position fuel cur2 rest false is_start caps
      | none => some (false, cursor, caps) := rfl

theorem posalts_zero (alts : List Pattern) (cursor : List Char) (caps : Caps) :
    positionAlternatives 0 alts cursor caps = none := rfl

theorem posalts_nil (fuel : Nat) (cursor : List Char) (caps : Caps) :
    positionAlternatives (fuel + 1) [] cursor caps = some (false, cursor, caps) := rfl

theorem posalts_cons (fuel : Nat) (a : Pattern) (rest : List Pattern) (cursor : List Char)
    (caps : Caps) :
    positionAlternatives (fuel + 1) (a :: rest) cursor caps =
      match match_subpattern fuel a cursor caps with
      | none => none
      | some (true, cur2, caps2) => some (true, cur2, caps2)
      | some (false, _, _) => positionAlternatives fuel rest cursor caps := rfl

theorem oneloop_zero (sub : Pattern) (cursor : List Char) (caps : Caps) :
    oneOrMoreLoop 0 sub cursor caps = none := rfl

theorem oneloop_step (fuel : Nat) (sub : Pattern) (cursor : List Char) (caps : Caps) :
    oneOrMoreLoop (fuel + 1) sub cursor caps =
      match match_subpattern fuel sub cursor caps with
      | none => none
      | some (false, _, caps2) => some (cursor, caps2)
      | some (true, cur2, caps2) => oneOrMoreLoop fuel sub cur2 caps2 := rfl

theorem searchno_nil (fuel : Nat) (patterns : List Pattern) (caps : Caps) :
    searchNoAnchor fuel patterns [] caps = some false := rfl

theorem searchno_cons (fuel : Nat) (patterns : List Pattern) (c : Char) (rest : List Char)
    (caps : Caps) :
    searchNoAnchor fuel patterns (c :: rest) caps =
      match match_from_current_position fuel (c :: rest) patterns true false caps with
      | none => none
      | some (true, _, _) => some true
      | some (false, _, _) => searchNoAnchor fuel patterns rest caps := rfl

theorem searchend_nil (fuel : Nat) (patterns : List Pattern) (caps : Caps) :
    searchEndAnchor fuel patterns [] caps = some false := rfl

theorem searchend_cons (fuel : Nat) (patterns : List Pattern) (c : Char) (rest : List Char)
    (caps : Caps) :
    searchEndAnchor fuel patterns (c :: rest) caps =
      match match_from_current_position fuel (c :: rest) patterns true false caps with
      | none => none
      | some (true, cur, _) =>
        if cur.isEmpty then some true else searchEndAnchor fuel patterns rest caps
      | some (false, _, _) => searchEndAnchor fuel patterns rest caps := rfl

/-! ## Failure leaves the cursor in place -/

/-- On failure, `match_subpattern` leaves the caller's cursor untouched;
`subpatternAlternatives` never moves the cursor at all (the early-return
quirk of the source's `Alternation` arm); a failed `positionAlternatives`
leaves both the cursor and the capture table exactly as they were. -/
theorem matcher_fail_cursor : ∀ fuel,
    (∀ p i caps c k, match_subpattern fuel p i caps = some (false, c, k) → c = i) ∧
    (∀ alts i caps b c k, subpatternAlternatives fuel alts i caps = some (b, c, k) → c = i) ∧
    (∀ alts cur caps c k,
      positionAlternatives fuel alts cur caps = some (false, c, k) → c = cur ∧ k = caps) := by
  intro fuel
  induction fuel with
  | zero =>
    refine ⟨?_, ?_, ?_⟩
    · intro p i caps c k h; rw [subpat_zero] at h; exact absurd h (by simp)
    · intro alts i caps b c k h; rw [subalts_zero] at h; exact absurd h (by simp)
    · intro alts cur caps c k h; rw [posalts_zero] at h; exact absurd h (by simp)
  | succ f ih =>
    obtain ⟨ihS, ihA, ihP⟩ := ih
    refine ⟨?_, ?_, ?_⟩
    · intro p i caps c k h
      cases p with
      | Literal lit =>
        rw [subpat_literal] at h
        cases hml : match_literal lit i <;> rw [hml] at h <;> simp at h
        exact h.1.symm
      | Digit =>
        rw [subpat_digit] at h
        cases hmc : match_class .Digit i <;> rw [hmc] at h <;> simp at h
        exact h.1.symm
      | Alphanumeric =>
        rw [subpat_alphanumeric] at h
        cases hmc : match_class .Alphanumeric i <;> rw [hmc] at h <;> simp at h
        exact h.1.symm
      | AnyChar =>
        rw [subpat_anychar] at h
        cases hmc : match_class .AnyChar i <;> rw [hmc] at h <;> simp at h
        exact h.1.symm
      | CharGroup chars neg =>
        rw [subpat_chargroup] at h
        cases hmc : match_class (.CharGroup chars neg) i <;> rw [hmc] at h <;> simp at h
        exact h.1.symm
      | Start => rw [subpat_start] at h; simp at h; exact h.1.symm
      | End => rw [subpat_end] at h; simp at h; exact h.1.symm
      | OneOrMore sub => rw [subpat_oneormore] at h; simp at h; exact h.1.symm
      | ZeroOrOne sub => rw [subpat_zeroorone] at h; simp at h; exact h.1.symm
      | Group subs =>
        rw [subpat_group] at h
        cases hm : match_from_current_position f i subs true false caps with
        | none => rw [hm] at h; exact absurd h (by simp)
        | some r =>
          obtain ⟨b2, cur2, caps2⟩ := r
          cases b2 <;> rw [hm] at h <;> simp at h
          exact h.1.symm
      | Alternation alts =>
        rw [subpat_alternation] at h
        exact ihA alts i caps false c k h
      | BackReference n =>
        rw [subpat_backreference] at h
        cases hg : capsGet caps n with
        | none => rw [hg] at h; simp at h; exact h.1.symm
        | some captured =>
          rw [hg] at h
          dsimp only at h
          cases hml : match_literal captured i <;> rw [hml] at h <;> simp at h
          exact h.1.symm
    · intro alts i caps b c k h
      cases alts with
      | nil => rw [subalts_nil] at h; simp at h; exact h.2.1.symm
      | cons a rest =>
        rw [subalts_cons] at h
        cases hs : match_subpattern f a i caps with
        | none => rw [hs] at h; exact absurd h (by simp)
        | some r =>
          obtain ⟨b2, cur2, caps2⟩ := r
          cases b2 with
          | false =>
            rw [hs] at h
            exact ihA rest i caps b c k h
          | true => rw [hs] at h; simp at h; exact h.2.1.symm
    · intro alts cur caps c k h
      cases alts with
      | nil => rw [posalts_nil] at h; simp at h; exact ⟨h.1.symm, h.2.symm⟩
      | cons a rest =>
        rw [posalts_cons] at h
        cases hs : match_subpattern f a cur caps with
        | none => rw [hs] at h; exact absurd h (by simp)
        | some r =>
          obtain ⟨b2, cur2, caps2⟩ := r
          cases b2 with
          | false =>
            rw [hs] at h
            exact ihP rest cur caps c k h
          | true => rw [hs] at h; simp at h

/-! ## Fuel monotonicity

A run that completes within some fuel completes with the same result for any
larger fuel; `none` only ever means "fuel exhausted". -/

theorem matcher_step_mono : ∀ fuel,
    (∀ p i caps r, match_subpattern fuel p i caps = some r →
      match_subpattern (fuel + 1) p i caps = some r) ∧
    (∀ alts i caps r, subpatternAlternatives fuel alts i caps = some r →
      subpatternAlternatives (fuel + 1) alts i caps = some r) ∧
    (∀ cursor patterns first is_start caps r,
      match_from_current_position fuel cursor patterns first is_start caps = some r →
      match_from_current_position (fuel + 1) cursor patterns first is_start caps = some r) ∧
    (∀ alts cursor caps r, positionAlternatives fuel alts cursor caps = some r →
      positionAlternatives (fuel + 1) alts cursor caps = some r) ∧
    (∀ sub cursor caps r, oneOrMoreLoop fuel sub cursor caps = some r →
      oneOrMoreLoop (fuel + 1) sub cursor caps = some r) := by
  intro fuel
  induction fuel with
  | zero =>
    refine ⟨?_, ?_, ?_, ?_, ?_⟩
    · intro p i caps r h; rw [subpat_zero] at h; exact absurd h (by simp)
    · intro alts i caps r h; rw [subalts_zero] at h; exact absurd h (by simp)
    · intro cursor patterns first is_start caps r h
      rw [mfcp_zero] at h; exact absurd h (by simp)
    · intro alts cursor caps r h; rw [posalts_zero] at h; exact absurd h (by simp)
    · intro sub cursor caps r h; rw [oneloop_zero] at h; exact absurd h (by simp)
  | succ f ih =>
    obtain ⟨ihS, ihA, ihM, ihP, ihL⟩ := ih
    refine ⟨?_, ?_, ?_, ?_, ?_⟩
    · intro p i caps r h
      cases p with
      | Literal lit => rw [subpat_literal] at h ⊢; exact h
      | Digit => rw [subpat_digit] at h ⊢; exact h
      | Alphanumeric => rw [subpat_alphanumeric] at h ⊢; exact h
      | AnyChar => rw [subpat_anychar] at h ⊢; exact h
      | CharGroup chars neg => rw [subpat_chargroup] at h ⊢; exact h
      | Start => rw [subpat_start] at h ⊢; exact h
      | End => rw [subpat_end] at h ⊢; exact h
      | OneOrMore sub => rw [subpat_oneormore] at h ⊢; exact h
      | ZeroOrOne sub => rw [subpat_zeroorone] at h ⊢; exact h
      | BackReference n => rw [subpat_backreference] at h ⊢; exact h
      | Group subs =>
        rw [subpat_group] at h ⊢
        cases hm : match_from_current_position f i subs true false caps with
        | none => rw [hm] at h; exact absurd h (by simp)
        | some r2 =>
          rw [hm] at h
          rw [ihM i subs true false caps r2 hm]
          exact h
      | Alternation alts =>
        rw [subpat_alternation] at h ⊢
        exact ihA alts i caps r h
    · intro alts i caps r h
      cases alts with
      | nil => rw [subalts_nil] at h ⊢; exact h
      | cons a rest =>
        rw [subalts_cons] at h ⊢
        cases hs : match_subpattern f a i caps with
        | none => rw [hs] at h; exact absurd h (by simp)
        | some r2 =>
          obtain ⟨b2, cur2, caps2⟩ := r2
          rw [hs] at h
          rw [ihS a i caps (b2, cur2, caps2) hs]
          cases b2 with
          | true => exact h
          | false =>
            dsimp only at h ⊢
            exact ihA rest i caps r h
    · intro cursor patterns first is_start caps r h
      cases patterns with
      | nil => rw [mfcp_nil] at h ⊢; exact h
      | cons p rest =>
        cases p with
        | Literal lit =>
          rw [mfcp_literal] at h ⊢
          cases hml : match_literal lit cursor with
          | none => rw [hml] at h; exact h
          | some cur2 =>
            rw [hml] at h
            exact ihM cur2 rest false is_start caps r h
        | Start =>
          rw [mfcp_start] at h ⊢
          by_cases hb : (first && is_start) = true
          · rw [if_pos hb] at h ⊢; exact ihM cursor rest false is_start caps r h
          · rw [if_neg hb] at h ⊢; exact h
        | End =>
          rw [mfcp_end] at h ⊢
          by_cases hb : (rest.isEmpty && cursor.isEmpty) = true
          · rw [if_pos hb] at h ⊢; exact ihM cursor rest false is_start caps r h
          · rw [if_neg hb] at h ⊢; exact h
        | OneOrMore sub =>
          rw [mfcp_oneormore] at h ⊢
          cases hs : match_subpattern f sub cursor caps with
          | none => rw [hs] at h; exact absurd h (by simp)
          | some r2 =>
            obtain ⟨b2, cur2, caps2⟩ := r2
            rw [hs] at h
            rw [ihS sub cursor caps (b2, cur2, caps2) hs]
            cases b2 with
            | false => exact h
            | true =>
              dsimp only at h ⊢
              cases hl : oneOrMoreLoop f sub cur2 caps2 with
              | none => rw [hl] at h; exact absurd h (by simp)
              | some r3 =>
                obtain ⟨cur3, caps3⟩ := r3
                rw [hl] at h
                rw [ihL sub cur2 caps2 (cur3, caps3) hl]
                exact ihM cur3 rest false is_start caps3 r h
        | ZeroOrOne sub =>
          rw [mfcp_zeroorone] at h ⊢
          cases hs : match_subpattern f sub cursor caps with
          | none => rw [hs] at h; exact absurd h (by simp)
          | some r2 =>
            obtain ⟨b2, cur2, caps2⟩ := r2
            rw [hs] at h
            rw [ihS sub cursor caps (b2, cur2, caps2) hs]
            dsimp only at h ⊢
            exact ihM cur2 rest false is_start caps2 r h
        | Group subs =>
          rw [mfcp_group] at h ⊢
          cases hm : match_from_current_position f cursor subs true false caps with
          | none => rw [hm] at h; exact absurd h (by simp)
          | some r2 =>
            obtain ⟨b2, cur2, caps2⟩ := r2
            rw [hm] at h
            rw [ihM cursor subs true false caps (b2, cur2, caps2) hm]
            cases b2 with
            | false => exact h
            | true =>
              dsimp only at h ⊢
              exact ihM cur2 rest false is_start caps2 r h
        | Alternation alts =>
          rw [mfcp_alternation] at h ⊢
          cases hp : positionAlternatives f alts cursor caps with
          | none => rw [hp] at h; exact absurd h (by simp)
          | some r2 =>
            obtain ⟨b2, cur2, caps2⟩ := r2
            rw [hp] at h
            rw [ihP alts cursor caps (b2, cur2, caps2) hp]
            cases b2 with
            | false => exact h
            | true =>
              dsimp only at h ⊢
              exact ihM cur2 rest false is_start caps2 r h
        | BackReference n =>
          rw [mfcp_backreference] at h ⊢
          cases hs : match_subpattern f (.BackReference n) cursor caps with
          | none => rw [hs] at h; exact absurd h (by simp)
          | some r2 =>
            obtain ⟨b2, cur2, caps2⟩ := r2
            rw [hs] at h
            rw [ihS (.BackReference n) cursor caps (b2, cur2, caps2) hs]
            cases b2 with
            | false => exact h
            | true =>
              dsimp only at h ⊢
              exact ihM cur2 rest false is_start caps2 r h
        | Digit =>
          rw [mfcp_digit] at h ⊢
          cases hmc : match_class .Digit cursor with
          | none => rw [hmc] at h; exact h
          | some cur2 => rw [hmc] at h; exact ihM cur2 rest false is_start caps r h
        | Alphanumeric =>
          rw [mfcp_alphanumeric] at h ⊢
          cases hmc : match_class .Alphanumeric cursor with
          | none => rw [hmc] at h; exact h
          | some cur2 => rw [hmc] at h; exact ihM cur2 rest false is_start caps r h
        | AnyChar =>
          rw [mfcp_anychar] at h ⊢
          cases hmc : match_class .AnyChar cursor with
          | none => rw [hmc] at h; exact h
          | some cur2 => rw [hmc] at h; exact ihM cur2 rest false is_start caps r h
        | CharGroup chars neg =>
          rw [mfcp_chargroup] at h ⊢
          cases hmc : match_class (.CharGroup chars neg) cursor with
          | none => rw [hmc] at h; exact h
          | some cur2 => rw [hmc] at h; exact ihM cur2 rest false is_start caps r h
    · intro alts cursor caps r h
      cases alts with
      | nil => rw [posalts_nil] at h ⊢; exact h
      | cons a rest =>
        rw [posalts_cons] at h ⊢
        cases hs : match_subpattern f a cursor caps with
        | none => rw [hs] at h; exact absurd h (by simp)
        | some r2 =>
          obtain ⟨b2, cur2, caps2⟩ := r2
          rw [hs] at h
          rw [ihS a cursor caps (b2, cur2, caps2) hs]
          cases b2 with
          | true => exact h
          | false =>
            dsimp only at h ⊢
            exact ihP rest cursor caps r h
    · intro sub cursor caps r h
      rw [oneloop_step] at h ⊢
      cases hs : match_subpattern f sub cursor caps with
      | none => rw [hs] at h; exact absurd h (by simp)
      | some r2 =>
        obtain ⟨b2, cur2, caps2⟩ := r2
        rw [hs] at h
        rw [ihS sub cursor caps (b2, cur2, caps2) hs]
        cases b2 with
        | false => exact h
        | true =>
          dsimp only at h ⊢
          exact ihL sub cur2 caps2 r h

/-- Fuel monotonicity for `match_subpattern`. -/
theorem subpat_mono {f g : Nat} (hfg : f ≤ g) {p : Pattern} {i : List Char} {caps : Caps}
    {r : Bool × List Char × Caps} (h : match_subpattern f p i caps = some r) :
    match_subpattern g p i caps = some r := by
  induction g with
  | zero => cases Nat.le_zero.mp hfg; exact h
  | succ g ihg =>
    rcases Nat.lt_or_ge f (g + 1) with hlt | hge
    · exact (matcher_step_mono g).1 p i caps r (ihg (Nat.lt_succ_iff.mp hlt))
    · cases Nat.le_antisymm hfg hge; exact h

/-- Fuel monotonicity for `match_from_current_position`. -/
theorem mfcp_mono {f g : Nat} (hfg : f ≤ g) {cursor : List Char} {patterns : List Pattern}
    {first is_start : Bool} {caps : Caps} {r : Bool × List Char × Caps}
    (h : match_from_current_position f cursor patterns first is_start caps = some r) :
    match_from_current_position g cursor patterns first is_start caps = some r := by
  induction g with
  | zero => cases Nat.le_zero.mp hfg; exact h
  | succ g ihg =>
    rcases Nat.lt_or_ge f (g + 1) with hlt | hge
    · exact (matcher_step_mono g).2.2.1 cursor patterns first is_start caps r
        (ihg (Nat.lt_succ_iff.mp hlt))
    · cases Nat.le_antisymm hfg hge; exact h

/-- Fuel monotonicity for `oneOrMoreLoop`. -/
theorem oneloop_mono {f g : Nat} (hfg : f ≤ g) {sub : Pattern} {cursor : List Char}
    {caps : Caps} {r : List Char × Caps} (h : oneOrMoreLoop f sub cursor caps = some r) :
    oneOrMoreLoop g sub cursor caps = some r := by
  induction g with
  | zero => cases Nat.le_zero.mp hfg; exact h
  | succ g ihg =>
    rcases Nat.lt_or_ge f (g + 1) with hlt | hge
    · exact (matcher_step_mono g).2.2.2.2 sub cursor caps r (ihg (Nat.lt_succ_iff.mp hlt))
    · cases Nat.le_antisymm hfg hge; exact h

/-! ## The greedy loop stops only on failure -/

/-- When `oneOrMoreLoop` terminates, the cursor it stops at is one where a
final attempt of `sub` failed (with the result's capture table): the loop is
maximally greedy. -/
theorem oneloop_greedy (sub : Pattern) : ∀ fuel cursor caps cur2 caps2,
    oneOrMoreLoop fuel sub cursor caps = some (cur2, caps2) →
    ∃ g capsIn, g < fuel ∧ match_subpattern g sub cur2 capsIn = some (false, cur2, caps2) := by
  intro fuel
  induction fuel with
  | zero =>
    intro cursor caps cur2 caps2 h
    rw [oneloop_zero] at h; exact absurd h (by simp)
  | succ f ih =>
    intro cursor caps cur2 caps2 h
    rw [oneloop_step] at h
    cases hs : match_subpattern f sub cursor caps with
    | none => rw [hs] at h; exact absurd h (by simp)
    | some r2 =>
      obtain ⟨b2, curx, capsx⟩ := r2
      rw [hs] at h
      cases b2 with
      | false =>
        simp only [Option.some.injEq, Prod.mk.injEq] at h
        obtain ⟨hcur, hcaps⟩ := h
        have hx : curx = cursor := (matcher_fail_cursor f).1 sub cursor caps curx capsx hs
        refine ⟨f, caps, Nat.lt_succ_self f, ?_⟩
        rw [← hcur, ← hcaps]
        rw [hx] at hs
        exact hs
      | true =>
        dsimp only at h
        obtain ⟨g, capsIn, hg, hrun⟩ := ih curx capsx cur2 caps2 h
        exact ⟨g, capsIn, Nat.lt_succ_of_lt hg, hrun⟩

/-! ## The no-anchor search loop -/

/-- `searchNoAnchor` returns `true` exactly when some suffix with at least one
character admits a successful walk of the sequence — i.e. offsets
`0 .. length-1` are tried and the empty remainder is never attempted. -/
theorem searchNoAnchor_characterization (fuel : Nat) (patterns : List Pattern) :
    ∀ l caps b, searchNoAnchor fuel patterns l caps = some b →
      (b = true ↔ ∃ k, k < l.length ∧ ∃ cur caps2,
        match_from_current_position fuel (l.drop k) patterns true false caps =
          some (true, cur, caps2)) := by
  intro l
  induction l with
  | nil =>
    intro caps b h
    rw [searchno_nil] at h
    simp only [Option.some.injEq] at h
    subst h
    simp
  | cons c rest ih =>
    intro caps b h
    rw [searchno_cons] at h
    cases hm : match_from_current_position fuel (c :: rest) patterns true false caps with
    | none => rw [hm] at h; exact absurd h (by simp)
    | some r2 =>
      obtain ⟨b2, cur2, caps2⟩ := r2
      rw [hm] at h
      cases b2 with
      | true =>
        simp only [Option.some.injEq] at h
        subst h
        constructor
        · intro _
          exact ⟨0, by simp, cur2, caps2, hm⟩
        · intro _; rfl
      | false =>
        dsimp only at h
        have hiff := ih caps b h
        rw [hiff]
        constructor
        · rintro ⟨k, hk, cur3, caps3, hrun⟩
          refine ⟨k + 1, ?_, cur3, caps3, ?_⟩
          · simp only [List.length_cons]; omega
          · simpa using hrun
        · rintro ⟨k, hk, cur3, caps3, hrun⟩
          cases k with
          | zero =>
            rw [List.drop_zero] at hrun
            rw [hm] at hrun
            exact absurd hrun (by simp)
          | succ j =>
            refine ⟨j, ?_, cur3, caps3, ?_⟩
            · simp only [List.length_cons] at hk; omega
            · simpa using hrun

/-! ## Dispatch helpers for `match_pattern` -/

theorem option_map_fst_eq_some {o : Option (Bool × List Char × Caps)} {b : Bool} :
    o.map (fun r => r.1) = some b ↔ ∃ cur caps, o = some (b, cur, caps) := by
  cases o with
  | none => simp
  | some r => obtain ⟨b2, cur2, caps2⟩ := r; simp [eq_comm]

theorem starts_with_anchor_start (rest : List Pattern) :
    starts_with_anchor (.Start :: rest) = true := rfl

theorem ends_with_anchor_concat (ps : List Pattern) :
    ends_with_anchor (ps ++ [.End]) = true := by
  unfold ends_with_anchor
  rw [List.getLast?_concat]

/-- With both anchors present, `match_pattern` is exactly one aligned attempt
at position 0 with `is_start = true`. -/
theorem match_pattern_both_anchors (fuel : Nat) (input_line pattern_str : String)
    (hs : starts_with_anchor (parse_pattern pattern_str.toList) = true)
    (he : ends_with_anchor (parse_pattern pattern_str.toList) = true) :
    match_pattern fuel input_line pattern_str =
      (match_from_current_position fuel input_line.toList (parse_pattern pattern_str.toList)
        true true []).map (fun r => r.1) := by
  unfold match_pattern
  dsimp only
  rw [hs, he]
  simp

/-- With no anchors, `match_pattern` is the offset search loop. -/
theorem match_pattern_no_anchors (fuel : Nat) (input_line pattern_str : String)
    (hs : starts_with_anchor (parse_pattern pattern_str.toList) = false)
    (he : ends_with_anchor (parse_pattern pattern_str.toList) = false) :
    match_pattern fuel input_line pattern_str =
      searchNoAnchor fuel (parse_pattern pattern_str.toList) input_line.toList [] := by
  unfold match_pattern
  dsimp only
  rw [hs, he]
  simp

/-! ## Sequences without anchor nodes

For a node list that contains no top-level `Start`/`End`, the walk is
independent of the `first`/`is_start` flags, and appending a final `End` node
is equivalent to demanding that the walk consume the whole input. -/

theorem mfcp_flags_irrelevant : ∀ fuel (ps : List Pattern),
    (∀ p ∈ ps, p ≠ .Start ∧ p ≠ .End) →
    ∀ cursor caps fst st fst' st',
    match_from_current_position fuel cursor ps fst st caps =
      match_from_current_position fuel cursor ps fst' st' caps := by
  intro fuel
  induction fuel with
  | zero => intro ps _ cursor caps fst st fst' st'; rw [mfcp_zero, mfcp_zero]
  | succ f ih =>
    intro ps hno cursor caps fst st fst' st'
    cases ps with
    | nil => rw [mfcp_nil, mfcp_nil]
    | cons p rest =>
      have hno_rest : ∀ q ∈ rest, q ≠ .Start ∧ q ≠ .End :=
        fun q hq => hno q (List.mem_cons_of_mem p hq)
      have hno_p := hno p (List.mem_cons_self p rest)
      cases p with
      | Start => exact absurd rfl hno_p.1
      | End => exact absurd rfl hno_p.2
      | Literal lit =>
        rw [mfcp_literal, mfcp_literal]
        cases hml : match_literal lit cursor with
        | none => rfl
        | some cur2 => exact ih rest hno_rest cur2 caps false st false st'
      | Digit =>
        rw [mfcp_digit, mfcp_digit]
        cases hmc : match_class .Digit cursor with
        | none => rfl
        | some cur2 => exact ih rest hno_rest cur2 caps false st false st'
      | Alphanumeric =>
        rw [mfcp_alphanumeric, mfcp_alphanumeric]
        cases hmc : match_class .Alphanumeric cursor with
        | none => rfl
        | some cur2 => exact ih rest hno_rest cur2 caps false st false st'
      | AnyChar =>
        rw [mfcp_anychar, mfcp_anychar]
        cases hmc : match_class .AnyChar cursor with
        | none => rfl
        | some cur2 => exact ih rest hno_rest cur2 caps false st false st'
      | CharGroup chars neg =>
        rw [mfcp_chargroup, mfcp_chargroup]
        cases hmc : match_class (.CharGroup chars neg) cursor with
        | none => rfl
        | some cur2 => exact ih rest hno_rest cur2 caps false st false st'
      | OneOrMore sub =>
        rw [mfcp_oneormore, mfcp_oneormore]
        cases hs : match_subpattern f sub cursor caps with
        | none => rfl
        | some r2 =>
          obtain ⟨b2, cur2, caps2⟩ := r2
          cases b2 with
          | false => rfl
          | true =>
            dsimp only
            cases hl : oneOrMoreLoop f sub cur2 caps2 with
            | none => rfl
            | some r3 =>
              obtain ⟨cur3, caps3⟩ := r3
              exact ih rest hno_rest cur3 caps3 false st false st'
      | ZeroOrOne sub =>
        rw [mfcp_zeroorone, mfcp_zeroorone]
        cases hs : match_subpattern f sub cursor caps with
        | none => rfl
        | some r2 =>
          obtain ⟨b2, cur2, caps2⟩ := r2
          exact ih rest hno_rest cur2 caps2 false st false st'
      | Group subs =>
        rw [mfcp_group, mfcp_group]
        cases hm : match_from_current_position f cursor subs true false caps with
        | none => rfl
        | some r2 =>
          obtain ⟨b2, cur2, caps2⟩ := r2
          cases b2 with
          | false => rfl
          | true => exact ih rest hno_rest cur2 caps2 false st false st'
      | Alternation alts =>
        rw [mfcp_alternation, mfcp_alternation]
        cases hp : positionAlternatives f alts cursor caps with
        | none => rfl
        | some r2 =>
          obtain ⟨b2, cur2, caps2⟩ := r2
          cases b2 with
          | false => rfl
          | true => exact ih rest hno_rest cur2 caps2 false st false st'
      | BackReference n =>
        rw [mfcp_backreference, mfcp_backreference]
        cases hs : match_subpattern f (.BackReference n) cursor caps with
        | none => rfl
        | some r2 =>
          obtain ⟨b2, cur2, caps2⟩ := r2
          cases b2 with
          | false => rfl
          | true => exact ih rest hno_rest cur2 caps2 false st false st'

/-- Walking `ps ++ [End]` to success is walking `ps` to success and ending
with an empty cursor (forward direction, same fuel). -/
theorem mfcp_append_end_forward : ∀ fuel (ps : List Pattern),
    (∀ p ∈ ps, p ≠ .Start ∧ p ≠ .End) →
    ∀ cursor caps fst st cur2 caps2,
    match_from_current_position fuel cursor (ps ++ [.End]) fst st caps =
      some (true, cur2, caps2) →
    match_from_current_position fuel cursor ps fst st caps = some (true, cur2, caps2) ∧
      cur2 = [] := by
  intro fuel
  induction fuel with
  | zero =>
    intro ps _ cursor caps fst st cur2 caps2 h
    rw [mfcp_zero] at h; exact absurd h (by simp)
  | succ f ih =>
    intro ps hno cursor caps fst st cur2 caps2 h
    cases ps with
    | nil =>
      rw [List.nil_append, mfcp_end] at h
      simp only [List.isEmpty_nil, Bool.true_and] at h
      by_cases hc : cursor.isEmpty = true
      · rw [if_pos hc] at h
        have hcur : cursor = [] := List.isEmpty_iff.mp hc
        cases f with
        | zero => rw [mfcp_zero] at h; exact absurd h (by simp)
        | succ g =>
          rw [mfcp_nil] at h
          simp only [Option.some.injEq, Prod.mk.injEq, true_and] at h
          obtain ⟨h1, h2⟩ := h
          rw [mfcp_nil]
          subst h1 h2
          exact ⟨rfl, hcur⟩
      · rw [if_neg hc] at h
        exact absurd h (by simp)
    | cons p rest =>
      have hno_rest : ∀ q ∈ rest, q ≠ .Start ∧ q ≠ .End :=
        fun q hq => hno q (List.mem_cons_of_mem p hq)
      have hno_p := hno p (List.mem_cons_self p rest)
      rw [List.cons_append] at h
      cases p with
      | Start => exact absurd rfl hno_p.1
      | End => exact absurd rfl hno_p.2
      | Literal lit =>
        rw [mfcp_literal] at h
        rw [mfcp_literal]
        cases hml : match_literal lit cursor with
        | none => rw [hml] at h; exact absurd h (by simp)
        | some curx =>
          rw [hml] at h
          exact ih rest hno_rest curx caps false st cur2 caps2 h
      | Digit =>
        rw [mfcp_digit] at h
        rw [mfcp_digit]
        cases hmc : match_class .Digit cursor with
        | none => rw [hmc] at h; exact absurd h (by simp)
        | some curx =>
          rw [hmc] at h
          exact ih rest hno_rest curx caps false st cur2 caps2 h
      | Alphanumeric =>
        rw [mfcp_alphanumeric] at h
        rw [mfcp_alphanumeric]
        cases hmc : match_class .Alphanumeric cursor with
        | none => rw [hmc] at h; exact absurd h (by simp)
        | some curx =>
          rw [hmc] at h
          exact ih rest hno_rest curx caps false st cur2 caps2 h
      | AnyChar =>
        rw [mfcp_anychar] at h
        rw [mfcp_anychar]
        cases hmc : match_class .AnyChar cursor with
        | none => rw [hmc] at h; exact absurd h (by simp)
        | some curx =>
          rw [hmc] at h
          exact ih rest hno_rest curx caps false st cur2 caps2 h
      | CharGroup chars neg =>
        rw [mfcp_chargroup] at h
        rw [mfcp_chargroup]
        cases hmc : match_class (.CharGroup chars neg) cursor with
        | none => rw [hmc] at h; exact absurd h (by simp)
        | some curx =>
          rw [hmc] at h
          exact ih rest hno_rest curx caps false st cur2 caps2 h
      | OneOrMore sub =>
        rw [mfcp_oneormore] at h
        rw [mfcp_oneormore]
        cases hs : match_subpattern f sub cursor caps with
        | none => rw [hs] at h; exact absurd h (by simp)
        | some r2 =>
          obtain ⟨b2, curx, capsx⟩ := r2
          rw [hs] at h
          cases b2 with
          | false => dsimp only at h; exact absurd h (by simp)
          | true =>
            dsimp only at h ⊢
            cases hl : oneOrMoreLoop f sub curx capsx with
            | none => rw [hl] at h; exact absurd h (by simp)
            | some r3 =>
              obtain ⟨cur3, caps3⟩ := r3
              rw [hl] at h
              exact ih rest hno_rest cur3 caps3 false st cur2 caps2 h
      | ZeroOrOne sub =>
        rw [mfcp_zeroorone] at h
        rw [mfcp_zeroorone]
        cases hs : match_subpattern f sub cursor caps with
        | none => rw [hs] at h; exact absurd h (by simp)
        | some r2 =>
          obtain ⟨b2, curx, capsx⟩ := r2
          rw [hs] at h
          dsimp only at h ⊢
          exact ih rest hno_rest curx capsx false st cur2 caps2 h
      | Group subs =>
        rw [mfcp_group] at h
        rw [mfcp_group]
        cases hm : match_from_current_position f cursor subs true false caps with
        | none => rw [hm] at h; exact absurd h (by simp)
        | some r2 =>
          obtain ⟨b2, curx, capsx⟩ := r2
          rw [hm] at h
          cases b2 with
          | false => dsimp only at h; exact absurd h (by simp)
          | true =>
            dsimp only at h ⊢
            exact ih rest hno_rest curx capsx false st cur2 caps2 h
      | Alternation alts =>
        rw [mfcp_alternation] at h
        rw [mfcp_alternation]
        cases hp : positionAlternatives f alts cursor caps with
        | none => rw [hp] at h; exact absurd h (by simp)
        | some r2 =>
          obtain ⟨b2, curx, capsx⟩ := r2
          rw [hp] at h
          cases b2 with
          | false => dsimp only at h; exact absurd h (by simp)
          | true =>
            dsimp only at h ⊢
            exact ih rest hno_rest curx capsx false st cur2 caps2 h
      | BackReference n =>
        rw [mfcp_backreference] at h
        rw [mfcp_backreference]
        cases hs : match_subpattern f (.BackReference n) cursor caps with
        | none => rw [hs] at h; exact absurd h (by simp)
        | some r2 =>
          obtain ⟨b2, curx, capsx⟩ := r2
          rw [hs] at h
          cases b2 with
          | false => dsimp only at h; exact absurd h (by simp)
          | true =>
            dsimp only at h ⊢
            exact ih rest hno_rest curx capsx false st cur2 caps2 h

/-- Walking `ps` to success with everything consumed extends to a successful
walk of `ps ++ [End]` at one more unit of fuel (backward direction). -/
theorem mfcp_append_end_backward : ∀ fuel (ps : List Pattern),
    (∀ p ∈ ps, p ≠ .Start ∧ p ≠ .End) →
    ∀ cursor caps fst st caps2,
    match_from_current_position fuel cursor ps fst st caps = some (true, [], caps2) →
    match_from_current_position (fuel + 1) cursor (ps ++ [.End]) fst st caps =
      some (true, [], caps2) := by
  intro fuel
  induction fuel with
  | zero =>
    intro ps _ cursor caps fst st caps2 h
    rw [mfcp_zero] at h; exact absurd h (by simp)
  | succ f ih =>
    intro ps hno cursor caps fst st caps2 h
    cases ps with
    | nil =>
      rw [mfcp_nil] at h
      simp only [Option.some.injEq, Prod.mk.injEq, true_and] at h
      obtain ⟨h1, h2⟩ := h
      subst h1 h2
      rw [List.nil_append, mfcp_end]
      simp only [List.isEmpty_nil, Bool.true_and, if_pos]
      rw [mfcp_nil]
    | cons p rest =>
      have hno_rest : ∀ q ∈ rest, q ≠ .Start ∧ q ≠ .End :=
        fun q hq => hno q (List.mem_cons_of_mem p hq)
      have hno_p := hno p (List.mem_cons_self p rest)
      rw [List.cons_append]
      cases p with
      | Start => exact absurd rfl hno_p.1
      | End => exact absurd rfl hno_p.2
      | Literal lit =>
        rw [mfcp_literal] at h
        rw [mfcp_literal]
        cases hml : match_literal lit cursor with
        | none => rw [hml] at h; exact absurd h (by simp)
        | some curx =>
          rw [hml] at h
          exact ih rest hno_rest curx caps false st caps2 h
      | Digit =>
        rw [mfcp_digit] at h
        rw [mfcp_digit]
        cases hmc : match_class .Digit cursor with
        | none => rw [hmc] at h; exact absurd h (by simp)
        | some curx =>
          rw [hmc] at h
          exact ih rest hno_rest curx caps false st caps2 h
      | Alphanumeric =>
        rw [mfcp_alphanumeric] at h
        rw [mfcp_alphanumeric]
        cases hmc : match_class .Alphanumeric cursor with
        | none => rw [hmc] at h; exact absurd h (by simp)
        | some curx =>
          rw [hmc] at h
          exact ih rest hno_rest curx caps false st caps2 h
      | AnyChar =>
        rw [mfcp_anychar] at h
        rw [mfcp_anychar]
        cases hmc : match_class .AnyChar cursor with
        | none => rw [hmc] at h; exact absurd h (by simp)
        | some curx =>
          rw [hmc] at h
          exact ih rest hno_rest curx caps false st caps2 h
      | CharGroup chars neg =>
        rw [mfcp_chargroup] at h
        rw [mfcp_chargroup]
        cases hmc : match_class (.CharGroup chars neg) cursor with
        | none => rw [hmc] at h; exact absurd h (by simp)
        | some curx =>
          rw [hmc] at h
          exact ih rest hno_rest curx caps false st caps2 h
      | OneOrMore sub =>
        rw [mfcp_oneormore] at h
        rw [mfcp_oneormore]
        cases hs : match_subpattern f sub cursor caps with
        | none => rw [hs] at h; exact absurd h (by simp)
        | some r2 =>
          obtain ⟨b2, curx, capsx⟩ := r2
          rw [hs] at h
          rw [(matcher_step_mono f).1 sub cursor caps (b2, curx, capsx) hs]
          cases b2 with
          | false => dsimp only at h; exact absurd h (by simp)
          | true =>
            dsimp only at h ⊢
            cases hl : oneOrMoreLoop f sub curx capsx with
            | none => rw [hl] at h; exact absurd h (by simp)
            | some r3 =>
              obtain ⟨cur3, caps3⟩ := r3
              rw [hl] at h
              rw [(matcher_step_mono f).2.2.2.2 sub curx capsx (cur3, caps3) hl]
              exact ih rest hno_rest cur3 caps3 false st caps2 h
      | ZeroOrOne sub =>
        rw [mfcp_zeroorone] at h
        rw [mfcp_zeroorone]
        cases hs : match_subpattern f sub cursor caps with
        | none => rw [hs] at h; exact absurd h (by simp)
        | some r2 =>
          obtain ⟨b2, curx, capsx⟩ := r2
          rw [hs] at h
          rw [(matcher_step_mono f).1 sub cursor caps (b2, curx, capsx) hs]
          dsimp only at h ⊢
          exact ih rest hno_rest curx capsx false st caps2 h
      | Group subs =>
        rw [mfcp_group] at h
        rw [mfcp_group]
        cases hm : match_from_current_position f cursor subs true false caps with
        | none => rw [hm] at h; exact absurd h (by simp)
        | some r2 =>
          obtain ⟨b2, curx, capsx⟩ := r2
          rw [hm] at h
          rw [(matcher_step_mono f).2.2.1 cursor subs true false caps (b2, curx, capsx) hm]
          cases b2 with
          | false => dsimp only at h; exact absurd h (by simp)
          | true =>
            dsimp only at h ⊢
            exact ih rest hno_rest curx capsx false st caps2 h
      | Alternation alts =>
        rw [mfcp_alternation] at h
        rw [mfcp_alternation]
        cases hp : positionAlternatives f alts cursor caps with
        | none => rw [hp] at h; exact absurd h (by simp)
        | some r2 =>
          obtain ⟨b2, curx, capsx⟩ := r2
          rw [hp] at h
          rw [(matcher_step_mono f).2.2.2.1 alts cursor caps (b2, curx, capsx) hp]
          cases b2 with
          | false => dsimp only at h; exact absurd h (by simp)
          | true =>
            dsimp only at h ⊢
            exact ih rest hno_rest curx capsx false st caps2 h
      | BackReference n =>
        rw [mfcp_backreference] at h
        rw [mfcp_backreference]
        cases hs : match_subpattern f (.BackReference n) cursor caps with
        | none => rw [hs] at h; exact absurd h (by simp)
        | some r2 =>
          obtain ⟨b2, curx, capsx⟩ := r2
          rw [hs] at h
          rw [(matcher_step_mono f).1 (.BackReference n) cursor caps (b2, curx, capsx) hs]
          cases b2 with
          | false => dsimp only at h; exact absurd h (by simp)
          | true =>
            dsimp only at h ⊢
            exact ih rest hno_rest curx capsx false st caps2 h

/-! ## The capture-table index invariant -/

/-- Every recorded group index is at least 1. -/
def capsOK (caps : Caps) : Prop := ∀ q ∈ caps, 1 ≤ q.1

theorem capsOK_nil : capsOK [] := by intro q hq; cases hq

theorem capsOK_insert {caps : Caps} (k : Nat) (v : List Char) (hk : 1 ≤ k)
    (h : capsOK caps) : capsOK (capsInsert caps k v) := by
  intro q hq
  rcases List.mem_cons.mp hq with rfl | hmem
  · exact hk
  · exact h q ((List.eraseP_sublist caps).subset hmem)

/-- In a table whose keys are all at least 1, index 0 is never present. -/
theorem capsOK_get_zero {caps : Caps} (h : capsOK caps) : capsGet caps 0 = none := by
  unfold capsGet
  cases hf : caps.find? (fun p => p.1 == 0) with
  | none => rfl
  | some q =>
    have hq := List.find?_some hf
    have hmem := List.mem_of_find?_eq_some hf
    have h1 := h q hmem
    simp only [beq_iff_eq] at hq
    omega

/-- Every capture table produced by the matcher from a table with indices at
least 1 again has all indices at least 1: the invariant is preserved by every
reachable transition (the only inserts use `table size + 1 ≥ 1`). -/
theorem matcher_capsOK : ∀ fuel,
    (∀ p i caps b cur k, capsOK caps →
      match_subpattern fuel p i caps = some (b, cur, k) → capsOK k) ∧
    (∀ alts i caps b cur k, capsOK caps →
      subpatternAlternatives fuel alts i caps = some (b, cur, k) → capsOK k) ∧
    (∀ cursor patterns fst st caps b cur k, capsOK caps →
      match_from_current_position fuel cursor patterns fst st caps = some (b, cur, k) →
      capsOK k) ∧
    (∀ alts cursor caps b cur k, capsOK caps →
      positionAlternatives fuel alts cursor caps = some (b, cur, k) → capsOK k) ∧
    (∀ sub cursor caps cur k, capsOK caps →
      oneOrMoreLoop fuel sub cursor caps = some (cur, k) → capsOK k) := by
  intro fuel
  induction fuel with
  | zero =>
    refine ⟨?_, ?_, ?_, ?_, ?_⟩
    · intro p i caps b cur k _ h; rw [subpat_zero] at h; exact absurd h (by simp)
    · intro alts i caps b cur k _ h; rw [subalts_zero] at h; exact absurd h (by simp)
    · intro cursor patterns fst st caps b cur k _ h
      rw [mfcp_zero] at h; exact absurd h (by simp)
    · intro alts cursor caps b cur k _ h; rw [posalts_zero] at h; exact absurd h (by simp)
    · intro sub cursor caps cur k _ h; rw [oneloop_zero] at h; exact absurd h (by simp)
  | succ f ih =>
    obtain ⟨ihS, ihA, ihM, ihP, ihL⟩ := ih
    refine ⟨?_, ?_, ?_, ?_, ?_⟩
    · intro p i caps b cur k hcaps h
      cases p with
      | Literal lit =>
        rw [subpat_literal] at h
        cases hml : match_literal lit i <;> rw [hml] at h <;>
          simp only [Option.some.injEq, Prod.mk.injEq] at h <;>
          exact h.2.2 ▸ hcaps
      | Digit =>
        rw [subpat_digit] at h
        cases hmc : match_class .Digit i <;> rw [hmc] at h <;>
          simp only [Option.some.injEq, Prod.mk.injEq] at h <;>
          exact h.2.2 ▸ hcaps
      | Alphanumeric =>
        rw [subpat_alphanumeric] at h
        cases hmc : match_class .Alphanumeric i <;> rw [hmc] at h <;>
          simp only [Option.some.injEq, Prod.mk.injEq] at h <;>
          exact h.2.2 ▸ hcaps
      | AnyChar =>
        rw [subpat_anychar] at h
        cases hmc : match_class .AnyChar i <;> rw [hmc] at h <;>
          simp only [Option.some.injEq, Prod.mk.injEq] at h <;>
          exact h.2.2 ▸ hcaps
      | CharGroup chars neg =>
        rw [subpat_chargroup] at h
        cases hmc : match_class (.CharGroup chars neg) i <;> rw [hmc] at h <;>
          simp only [Option.some.injEq, Prod.mk.injEq] at h <;>
          exact h.2.2 ▸ hcaps
      | Start =>
        rw [subpat_start] at h
        simp only [Option.some.injEq, Prod.mk.injEq] at h
        exact h.2.2 ▸ hcaps
      | End =>
        rw [subpat_end] at h
        simp only [Option.some.injEq, Prod.mk.injEq] at h
        exact h.2.2 ▸ hcaps
      | OneOrMore sub =>
        rw [subpat_oneormore] at h
        simp only [Option.some.injEq, Prod.mk.injEq] at h
        exact h.2.2 ▸ hcaps
      | ZeroOrOne sub =>
        rw [subpat_zeroorone] at h
        simp only [Option.some.injEq, Prod.mk.injEq] at h
        exact h.2.2 ▸ hcaps
      | Group subs =>
        rw [subpat_group] at h
        cases hm : match_from_current_position f i subs true false caps with
        | none => rw [hm] at h; exact absurd h (by simp)
        | some r2 =>
          obtain ⟨b2, cur2, caps2⟩ := r2
          rw [hm] at h
          have hcaps2 : capsOK caps2 := ihM i subs true false caps b2 cur2 caps2 hcaps hm
          cases b2 with
          | true =>
            dsimp only at h
            simp only [Option.some.injEq, Prod.mk.injEq] at h
            refine h.2.2 ▸ ?_
            exact capsOK_insert (caps.length + 1) (extract_captured i cur2) (by omega) hcaps2
          | false =>
            dsimp only at h
            simp only [Option.some.injEq, Prod.mk.injEq] at h
            exact h.2.2 ▸ hcaps2
      | Alternation alts =>
        rw [subpat_alternation] at h
        exact ihA alts i caps b cur k hcaps h
      | BackReference n =>
        rw [subpat_backreference] at h
        cases hg : capsGet caps n with
        | none =>
          rw [hg] at h
          simp only [Option.some.injEq, Prod.mk.injEq] at h
          exact h.2.2 ▸ hcaps
        | some captured =>
          rw [hg] at h
          dsimp only at h
          cases hml : match_literal captured i <;> rw [hml] at h <;>
            simp only [Option.some.injEq, Prod.mk.injEq] at h <;>
            exact h.2.2 ▸ hcaps
    · intro alts i caps b cur k hcaps h
      cases alts with
      | nil =>
        rw [subalts_nil] at h
        simp only [Option.some.injEq, Prod.mk.injEq] at h
        exact h.2.2 ▸ hcaps
      | cons a rest =>
        rw [subalts_cons] at h
        cases hs : match_subpattern f a i caps with
        | none => rw [hs] at h; exact absurd h (by simp)
        | some r2 =>
          obtain ⟨b2, cur2, caps2⟩ := r2
          rw [hs] at h
          cases b2 with
          | true =>
            dsimp only at h
            simp only [Option.some.injEq, Prod.mk.injEq] at h
            exact h.2.2 ▸ ihS a i caps true cur2 caps2 hcaps hs
          | false =>
            dsimp only at h
            exact ihA rest i caps b cur k hcaps h
    · intro cursor patterns fst st caps b cur k hcaps h
      cases patterns with
      | nil =>
        rw [mfcp_nil] at h
        simp only [Option.some.injEq, Prod.mk.injEq] at h
        exact h.2.2 ▸ hcaps
      | cons p rest =>
        cases p with
        | Literal lit =>
          rw [mfcp_literal] at h
          cases hml : match_literal lit cursor with
          | none =>
            rw [hml] at h
            simp only [Option.some.injEq, Prod.mk.injEq] at h
            exact h.2.2 ▸ hcaps
          | some cur2 =>
            rw [hml] at h
            exact ihM cur2 rest false st caps b cur k hcaps h
        | Start =>
          rw [mfcp_start] at h
          by_cases hb : (fst && st) = true
          · rw [if_pos hb] at h; exact ihM cursor rest false st caps b cur k hcaps h
          · rw [if_neg hb] at h
            simp only [Option.some.injEq, Prod.mk.injEq] at h
            exact h.2.2 ▸ hcaps
        | End =>
          rw [mfcp_end] at h
          by_cases hb : (rest.isEmpty && cursor.isEmpty) = true
          · rw [if_pos hb] at h; exact ihM cursor rest false st caps b cur k hcaps h
          · rw [if_neg hb] at h
            simp only [Option.some.injEq, Prod.mk.injEq] at h
            exact h.2.2 ▸ hcaps
        | OneOrMore sub =>
          rw [mfcp_oneormore] at h
          cases hs : match_subpattern f sub cursor caps with
          | none => rw [hs] at h; exact absurd h (by simp)
          | some r2 =>
            obtain ⟨b2, cur2, caps2⟩ := r2
            rw [hs] at h
            have hcaps2 : capsOK caps2 := ihS sub cursor caps b2 cur2 caps2 hcaps hs
            cases b2 with
            | false =>
              dsimp only at h
              simp only [Option.some.injEq, Prod.mk.injEq] at h
              exact h.2.2 ▸ hcaps2
            | true =>
              dsimp only at h
              cases hl : oneOrMoreLoop f sub cur2 caps2 with
              | none => rw [hl] at h; exact absurd h (by simp)
              | some r3 =>
                obtain ⟨cur3, caps3⟩ := r3
                rw [hl] at h
                have hcaps3 : capsOK caps3 := ihL sub cur2 caps2 cur3 caps3 hcaps2 hl
                exact ihM cur3 rest false st caps3 b cur k hcaps3 h
        | ZeroOrOne sub =>
          rw [mfcp_zeroorone] at h
          cases hs : match_subpattern f sub cursor caps with
          | none => rw [hs] at h; exact absurd h (by simp)
          | some r2 =>
            obtain ⟨b2, cur2, caps2⟩ := r2
            rw [hs] at h
            dsimp only at h
            have hcaps2 : capsOK caps2 := ihS sub cursor caps b2 cur2 caps2 hcaps hs
            exact ihM cur2 rest false st caps2 b cur k hcaps2 h
        | Group subs =>
          rw [mfcp_group] at h
          cases hm : match_from_current_position f cursor subs true false caps with
          | none => rw [hm] at h; exact absurd h (by simp)
          | some r2 =>
            obtain ⟨b2, cur2, caps2⟩ := r2
            rw [hm] at h
            have hcaps2 : capsOK caps2 := ihM cursor subs true false caps b2 cur2 caps2 hcaps hm
            cases b2 with
            | false =>
              dsimp only at h
              simp only [Option.some.injEq, Prod.mk.injEq] at h
              exact h.2.2 ▸ hcaps2
            | true =>
              dsimp only at h
              exact ihM cur2 rest false st caps2 b cur k hcaps2 h
        | Alternation alts =>
          rw [mfcp_alternation] at h
          cases hp : positionAlternatives f alts cursor caps with
          | none => rw [hp] at h; exact absurd h (by simp)
          | some r2 =>
            obtain ⟨b2, cur2, caps2⟩ := r2
            rw [hp] at h
            cases b2 with
            | false =>
              dsimp only at h
              simp only [Option.some.injEq, Prod.mk.injEq] at h
              exact h.2.2 ▸ hcaps
            | true =>
              dsimp only at h
              have hcaps2 : capsOK caps2 := ihP alts cursor caps true cur2 caps2 hcaps hp
              exact ihM cur2 rest false st caps2 b cur k hcaps2 h
        | BackReference n =>
          rw [mfcp_backreference] at h
          cases hs : match_subpattern f (.BackReference n) cursor caps with
          | none => rw [hs] at h; exact absurd h (by simp)
          | some r2 =>
            obtain ⟨b2, cur2, caps2⟩ := r2
            rw [hs] at h
            have hcaps2 : capsOK caps2 := ihS (.BackReference n) cursor caps b2 cur2 caps2 hcaps hs
            cases b2 with
            | false =>
              dsimp only at h
              simp only [Option.some.injEq, Prod.mk.injEq] at h
              exact h.2.2 ▸ hcaps2
            | true =>
              dsimp only at h
              exact ihM cur2 rest false st caps2 b cur k hcaps2 h
        | Digit =>
          rw [mfcp_digit] at h
          cases hmc : match_class .Digit cursor with
          | none =>
            rw [hmc] at h
            simp only [Option.some.injEq, Prod.mk.injEq] at h
            exact h.2.2 ▸ hcaps
          | some cur2 =>
            rw [hmc] at h
            exact ihM cur2 rest false st caps b cur k hcaps h
        | Alphanumeric =>
          rw [mfcp_alphanumeric] at h
          cases hmc : match_class .Alphanumeric cursor with
          | none =>
            rw [hmc] at h
            simp only [Option.some.injEq, Prod.mk.injEq] at h
            exact h.2.2 ▸ hcaps
          | some cur2 =>
            rw [hmc] at h
            exact ihM cur2 rest false st caps b cur k hcaps h
        | AnyChar =>
          rw [mfcp_anychar] at h
          cases hmc : match_class .AnyChar cursor with
          | none =>
            rw [hmc] at h
            simp only [Option.some.injEq, Prod.mk.injEq] at h
            exact h.2.2 ▸ hcaps
          | some cur2 =>
            rw [hmc] at h
            exact ihM cur2 rest false st caps b cur k hcaps h
        | CharGroup chars neg =>
          rw [mfcp_chargroup] at h
          cases hmc : match_class (.CharGroup chars neg) cursor with
          | none =>
            rw [hmc] at h
            simp only [Option.some.injEq, Prod.mk.injEq] at h
            exact h.2.2 ▸ hcaps
          | some cur2 =>
            rw [hmc] at h
            exact ihM cur2 rest false st caps b cur k hcaps h
    · intro alts cursor caps b cur k hcaps h
      cases alts with
      | nil =>
        rw [posalts_nil] at h
        simp only [Option.some.injEq, Prod.mk.injEq] at h
        exact h.2.2 ▸ hcaps
      | cons a rest =>
        rw [posalts_cons] at h
        cases hs : match_subpattern f a cursor caps with
        | none => rw [hs] at h; exact absurd h (by simp)
        | some r2 =>
          obtain ⟨b2, cur2, caps2⟩ := r2
          rw [hs] at h
          cases b2 with
          | true =>
            dsimp only at h
            simp only [Option.some.injEq, Prod.mk.injEq] at h
            exact h.2.2 ▸ ihS a cursor caps true cur2 caps2 hcaps hs
          | false =>
            dsimp only at h
            exact ihP rest cursor caps b cur k hcaps h
    · intro sub cursor caps cur k hcaps h
      rw [oneloop_step] at h
      cases hs : match_subpattern f sub cursor caps with
      | none => rw [hs] at h; exact absurd h (by simp)
      | some r2 =>
        obtain ⟨b2, cur2, caps2⟩ := r2
        rw [hs] at h
        have hcaps2 : capsOK caps2 := ihS sub cursor caps b2 cur2 caps2 hcaps hs
        cases b2 with
        | false =>
          dsimp only at h
          simp only [Option.some.injEq, Prod.mk.injEq] at h
          exact h.2 ▸ hcaps2
        | true =>
          dsimp only at h
          exact ihL sub cur2 caps2 cur k hcaps2 h

/-! ## Parser lemmas -/

/-- An unterminated character class consumes every remaining character. -/
theorem scanBracket_no_close : ∀ cs : List Char, ']' ∉ cs → scanBracket cs = (cs, []) := by
  intro cs
  induction cs with
  | nil => intro _; rfl
  | cons c rest ih =>
    intro hmem
    have hc : ¬ c = ']' := fun hc => hmem (hc ▸ List.mem_cons_self c rest)
    have hrest : ']' ∉ rest := fun hr => hmem (List.mem_cons_of_mem c hr)
    unfold scanBracket
    rw [if_neg hc, ih hrest]

theorem parsego_nil (fuel : Nat) (buffer : List Char) (acc : List Pattern) :
    parsePatternGo (fuel + 1) [] buffer acc = (flushBuffer buffer acc).reverse := rfl

/-- The `[` arm of the scanning loop, with the class scan made explicit. -/
theorem parsego_bracket (fuel : Nat) (cs buffer : List Char) (acc : List Pattern) :
    parsePatternGo (fuel + 1) ('[' :: cs) buffer acc =
      (match scanBracket (if (cs.head? == some '^') = true then cs.tail else cs) with
       | (group, rest2) =>
         parsePatternGo fuel rest2 []
           (.CharGroup group (cs.head? == some '^') :: flushBuffer buffer acc)) := rfl

/-- An unterminated non-negated class consumes to the end of the pattern. -/
theorem parse_pattern_unterminated_class (cs : List Char) (hmem : ']' ∉ cs)
    (hneg : cs.head? ≠ some '^') :
    parse_pattern ('[' :: cs) = [.CharGroup cs false] := by
  have h2 : ∃ F, parseFuel ('[' :: cs) = F + 2 := by
    refine ⟨parseFuel ('[' :: cs) - 2, ?_⟩
    have : 2 ≤ parseFuel ('[' :: cs) := by
      unfold parseFuel
      nlinarith [cs.length.zero_le]
    omega
  obtain ⟨F, hF⟩ := h2
  unfold parse_pattern
  rw [hF, parsego_bracket]
  have hbeq : (cs.head? == some '^') = false := by
    simp only [beq_eq_false_iff_ne, ne_eq]
    exact hneg
  rw [hbeq]
  simp only [Bool.false_eq_true, if_false]
  rw [scanBracket_no_close cs hmem]
  rw [parsego_nil]
  rfl

/-- An unterminated negated class consumes to the end of the pattern. -/
theorem parse_pattern_unterminated_neg_class (cs : List Char) (hmem : ']' ∉ cs) :
    parse_pattern ('[' :: '^' :: cs) = [.CharGroup cs true] := by
  have h2 : ∃ F, parseFuel ('[' :: '^' :: cs) = F + 2 := by
    refine ⟨parseFuel ('[' :: '^' :: cs) - 2, ?_⟩
    have : 2 ≤ parseFuel ('[' :: '^' :: cs) := by
      unfold parseFuel
      nlinarith [cs.length.zero_le]
    omega
  obtain ⟨F, hF⟩ := h2
  unfold parse_pattern
  rw [hF, parsego_bracket]
  have hbeq : ((('^' :: cs).head? == some '^')) = true := by simp
  rw [hbeq]
  simp only [if_true]
  rw [show ('^' :: cs).tail = cs from rfl]
  rw [scanBracket_no_close cs hmem]
  rw [parsego_nil]
  rfl

/-- The text consumed between two cursor positions, when the later cursor is a
suffix, is exactly the consumed prefix. -/
theorem extract_captured_append (pre s : List Char) : extract_captured (pre ++ s) s = pre := by
  unfold extract_captured
  have hle : s.length ≤ (pre ++ s).length := by simp
  rw [if_pos hle]
  have : (pre ++ s).length - s.length = pre.length := by simp
  rw [this]
  exact List.take_left pre s

/-! ## Claim theorems -/

/-- C9: a negated character group consumes one character and matches exactly
when the character is not a member of the listed set; at end of input it
fails, exactly like the non-negated class; concretely, `[^xyz]` rejects `"x"`
and accepts `"a"`. -/
theorem C9_negated_class :
    (∀ (g : List Char) (c : Char) (rest : List Char),
      match_class (.CharGroup g true) (c :: rest) =
        if g.contains c then none else some rest) ∧
    (∀ (g : List Char) (neg : Bool), match_class (.CharGroup g neg) [] = none) ∧
    match_pattern 100 "x" "[^xyz]" = some false ∧
    match_pattern 100 "a" "[^xyz]" = some true := by
  refine ⟨?_, ?_, by decide, by decide⟩
  · intro g c rest
    show (if g.contains c != true then some rest else none) =
      if g.contains c then none else some rest
    cases hb : g.contains c <;> simp [hb]
  · intro g neg
    rfl

/-- C8: a `ZeroOrOne` node attempts its inner pattern once: the sequence
continues from the inner attempt's cursor and captures whether it succeeded or
failed, and on failure the cursor is unchanged — the node never fails the
containing sequence by itself.  Concretely `a?b` accepts both `"b"` (with `a`
absent) and `"ab"`. -/
theorem C8_zeroorone :
    (∀ fuel (sub : Pattern) (rest : List Pattern) (fst st : Bool) (cursor : List Char)
      (caps : Caps) (m : Bool) (cur2 : List Char) (caps2 : Caps),
      match_subpattern fuel sub cursor caps = some (m, cur2, caps2) →
      match_from_current_position (fuel + 1) cursor (.ZeroOrOne sub :: rest) fst st caps =
        match_from_current_position fuel cur2 rest false st caps2 ∧
      (m = false → cur2 = cursor)) ∧
    match_pattern 100 "b" "a?b" = some true ∧
    match_pattern 100 "ab" "a?b" = some true := by
  refine ⟨?_, by decide, by decide⟩
  intro fuel sub rest fst st cursor caps m cur2 caps2 h
  constructor
  · rw [mfcp_zeroorone, h]
  · intro hm
    subst hm
    exact (matcher_fail_cursor fuel).1 sub cursor caps cur2 caps2 h

/-- C4: a `OneOrMore` node requires its inner pattern to succeed once — if the
first attempt fails the whole sequence fails on the spot, so zero occurrences
never match; after the first success the greedy loop re-attempts the inner
pattern until it fails (third conjunct: the loop's final cursor is one where
the inner pattern fails), and the rest of the sequence runs exactly at the
loop's final cursor, with no give-back if it fails (second conjunct).
Concretely `a+` accepts `"aaa"`, rejects `"b"` and `""`, and `a+a` rejects
`"aaa"` because the greedy `a+` never returns the last `a`. -/
theorem C4_oneormore_greedy :
    (∀ fuel (sub : Pattern) (rest : List Pattern) (fst st : Bool) (cursor : List Char)
      (caps : Caps) (cur0 : List Char) (caps0 : Caps),
      match_subpattern fuel sub cursor caps = some (false, cur0, caps0) →
      match_from_current_position (fuel + 1) cursor (.OneOrMore sub :: rest) fst st caps =
        some (false, cursor, caps0)) ∧
    (∀ fuel (sub : Pattern) (rest : List Pattern) (fst st : Bool) (cursor : List Char)
      (caps : Caps) (cur1 : List Char) (caps1 : Caps),
      match_subpattern fuel sub cursor caps = some (true, cur1, caps1) →
      match_from_current_position (fuel + 1) cursor (.OneOrMore sub :: rest) fst st caps =
        (match oneOrMoreLoop fuel sub cur1 caps1 with
         | none => none
         | some (cur2, caps2) => match_from_current_position fuel cur2 rest false st caps2)) ∧
    (∀ fuel (sub : Pattern) (cursor : List Char) (caps : Caps) (cur2 : List Char) (caps2 : Caps),
      oneOrMoreLoop fuel sub cursor caps = some (cur2, caps2) →
      ∃ g capsIn, g < fuel ∧ match_subpattern g sub cur2 capsIn = some (false, cur2, caps2)) ∧
    match_pattern 100 "aaa" "a+" = some true ∧
    match_pattern 100 "b" "a+" = some false ∧
    match_pattern 100 "" "a+" = some false ∧
    match_pattern 100 "aaa" "a+a" = some false := by
  refine ⟨?_, ?_, ?_, by decide, by decide, by decide, by decide⟩
  · intro fuel sub rest fst st cursor caps cur0 caps0 h
    rw [mfcp_oneormore, h]
  · intro fuel sub rest fst st cursor caps cur1 caps1 h
    rw [mfcp_oneormore, h]
  · intro fuel sub cursor caps cur2 caps2 h
    exact oneloop_greedy sub fuel cursor caps cur2 caps2 h

/-- C5: alternation is ordered choice.  A succeeding head branch commits its
cursor and captures at once (first conjunct); a failing head branch passes the
original cursor and captures to the remaining branches (second conjunct); a
wholly failed alternation leaves cursor and capture table exactly as they were
(third conjunct), and the sequence then fails without touching them (fifth
conjunct); a successful alternation continues the sequence from the committed
state (fourth conjunct).  Concretely `(cat|dog)` matches `"I have a dog"`,
group 1 capturing `"dog"`, and `(a|ab)` on `"ab"` commits the first branch
(`"a"`), not the longer one. -/
theorem C5_alternation_ordered :
    (∀ fuel (a : Pattern) (alts : List Pattern) (cursor : List Char) (caps : Caps)
      (cur2 : List Char) (caps2 : Caps),
      match_subpattern fuel a cursor caps = some (true, cur2, caps2) →
      positionAlternatives (fuel + 1) (a :: alts) cursor caps = some (true, cur2, caps2)) ∧
    (∀ fuel (a : Pattern) (alts : List Pattern) (cursor : List Char) (caps : Caps)
      (cur0 : List Char) (caps0 : Caps),
      match_subpattern fuel a cursor caps = some (false, cur0, caps0) →
      positionAlternatives (fuel + 1) (a :: alts) cursor caps =
        positionAlternatives fuel alts cursor caps) ∧
    (∀ fuel (alts : List Pattern) (cursor : List Char) (caps : Caps) (c : List Char) (k : Caps),
      positionAlternatives fuel alts cursor caps = some (false, c, k) → c = cursor ∧ k = caps) ∧
    (∀ fuel (alts rest : List Pattern) (fst st : Bool) (cursor : List Char) (caps : Caps)
      (cur2 : List Char) (caps2 : Caps),
      positionAlternatives fuel alts cursor caps = some (true, cur2, caps2) →
      match_from_current_position (fuel + 1) cursor (.Alternation alts :: rest) fst st caps =
        match_from_current_position fuel cur2 rest false st caps2) ∧
    (∀ fuel (alts rest : List Pattern) (fst st : Bool) (cursor : List Char) (caps : Caps)
      (c : List Char) (k : Caps),
      positionAlternatives fuel alts cursor caps = some (false, c, k) →
      match_from_current_position (fuel + 1) cursor (.Alternation alts :: rest) fst st caps =
        some (false, cursor, caps)) ∧
    match_pattern 100 "I have a dog" "(cat|dog)" = some true ∧
    match_from_current_position 100 "dog".toList (parse_pattern "(cat|dog)".toList)
      true false [] = some (true, [], [(1, ['d', 'o', 'g'])]) ∧
    match_from_current_position 100 "ab".toList (parse_pattern "(a|ab)".toList)
      true false [] = some (true, ['b'], [(1, ['a'])]) := by
  refine ⟨?_, ?_, ?_, ?_, ?_, by decide, by decide, by decide⟩
  · intro fuel a alts cursor caps cur2 caps2 h
    rw [posalts_cons, h]
  · intro fuel a alts cursor caps cur0 caps0 h
    rw [posalts_cons, h]
  · intro fuel alts cursor caps c k h
    exact (matcher_fail_cursor fuel).2.2 alts cursor caps c k h
  · intro fuel alts rest fst st cursor caps cur2 caps2 h
    rw [mfcp_alternation, h]
  · intro fuel alts rest fst st cursor caps c k h
    rw [mfcp_alternation, h]

/-- C6: a `BackReference n` node succeeds exactly when index `n` is present in
the capture table and the captured text occurs literally at the cursor, and
then consumes exactly that text, leaving the table unchanged; when the index
is absent it fails in place.  Concretely `(\w+) \1` matches `"hello hello"`
and rejects `"hello world"`. -/
theorem C6_backreference :
    (∀ fuel (n : Nat) (input cur2 : List Char) (caps caps2 : Caps),
      match_subpattern (fuel + 1) (.BackReference n) input caps = some (true, cur2, caps2) ↔
        caps2 = caps ∧ ∃ cap, capsGet caps n = some cap ∧ input = cap ++ cur2) ∧
    (∀ fuel (n : Nat) (input : List Char) (caps : Caps), capsGet caps n = none →
      match_subpattern (fuel + 1) (.BackReference n) input caps = some (false, input, caps)) ∧
    match_pattern 200 "hello hello" "(\\w+) \\1" = some true ∧
    match_pattern 200 "hello world" "(\\w+) \\1" = some false := by
  refine ⟨?_, ?_, by decide, by decide⟩
  · intro fuel n input cur2 caps caps2
    rw [subpat_backreference]
    cases hg : capsGet caps n with
    | none =>
      simp only [hg]
      constructor
      · intro h; exact absurd h (by simp)
      · rintro ⟨-, cap, hcap, -⟩; exact absurd hcap (by simp)
    | some cap =>
      dsimp only
      cases hml : match_literal cap input with
      | some rest =>
        have hin : input = cap ++ rest := (match_literal_eq_some_iff cap input rest).mp hml
        constructor
        · intro h
          simp only [Option.some.injEq, Prod.mk.injEq, true_and] at h
          obtain ⟨h1, h2⟩ := h
          exact ⟨h2.symm, cap, rfl, h1 ▸ hin⟩
        · rintro ⟨hc2, cap', hcap', hin'⟩
          obtain rfl : cap = cap' := by simpa using hcap'
          have : rest = cur2 := List.append_cancel_left (hin ▸ hin')
          subst this hc2
          rfl
      | none =>
        constructor
        · intro h; exact absurd h (by simp)
        · rintro ⟨-, cap', hcap', hin'⟩
          obtain rfl : cap = cap' := by simpa using hcap'
          have : match_literal cap input = some cur2 :=
            (match_literal_eq_some_iff cap input cur2).mpr hin'
          rw [hml] at this
          exact absurd this (by simp)
  · intro fuel n input caps h
    rw [subpat_backreference, h]

/-- C7: compilation is total and degrades malformed input to literals: a `+`
or `?` seen with no pending literal and no previously emitted node compiles to
the literal `"+"` (resp. `"?"`), and an unterminated `[` class consumes every
character to the end of the pattern (in both the plain and the negated form).
Concrete cases included. -/
theorem C7_malformed_patterns :
    (∀ fuel (cs : List Char), parsePatternGo (fuel + 1) ('+' :: cs) [] [] =
      parsePatternGo fuel cs [] [.Literal ['+']]) ∧
    (∀ fuel (cs : List Char), parsePatternGo (fuel + 1) ('?' :: cs) [] [] =
      parsePatternGo fuel cs [] [.Literal ['?']]) ∧
    (∀ cs : List Char, ']' ∉ cs → cs.head? ≠ some '^' →
      parse_pattern ('[' :: cs) = [.CharGroup cs false]) ∧
    (∀ cs : List Char, ']' ∉ cs → parse_pattern ('[' :: '^' :: cs) = [.CharGroup cs true]) ∧
    parse_pattern "+".toList = [.Literal ['+']] ∧
    parse_pattern "?".toList = [.Literal ['?']] ∧
    parse_pattern "[abc".toList = [.CharGroup ['a', 'b', 'c'] false] ∧
    parse_pattern "[^ab".toList = [.CharGroup ['a', 'b'] true] ∧
    parse_pattern "a+".toList = [.OneOrMore (.Literal ['a'])] := by
  refine ⟨?_, ?_, ?_, ?_, rfl, rfl, rfl, rfl, rfl⟩
  · intro fuel cs; rfl
  · intro fuel cs; rfl
  · exact parse_pattern_unterminated_class
  · exact parse_pattern_unterminated_neg_class

/-- C10: every capture table reachable from the empty one records only indices
at least 1 (inserts always use `table size + 1`), the escape `\0` compiles to
`BackReference 0`, and evaluating `BackReference 0` — as a subpattern or as
a sequence node — fails on every input and every reachable capture state. -/
theorem C10_backreference_zero :
    parse_pattern "\\0".toList = [.BackReference 0] ∧
    capsOK [] ∧
    (∀ fuel (p : Pattern) (i : List Char) (caps : Caps) (b : Bool) (cur : List Char) (k : Caps),
      capsOK caps → match_subpattern fuel p i caps = some (b, cur, k) → capsOK k) ∧
    (∀ fuel (cursor : List Char) (patterns : List Pattern) (fst st : Bool) (caps : Caps)
      (b : Bool) (cur : List Char) (k : Caps),
      capsOK caps →
      match_from_current_position fuel cursor patterns fst st caps = some (b, cur, k) →
      capsOK k) ∧
    (∀ fuel (i : List Char) (caps : Caps), capsOK caps →
      match_subpattern (fuel + 1) (.BackReference 0) i caps = some (false, i, caps)) ∧
    (∀ fuel (cursor : List Char) (rest : List Pattern) (fst st : Bool) (caps : Caps),
      capsOK caps →
      match_from_current_position (fuel + 2) cursor (.BackReference 0 :: rest) fst st caps =
        some (false, cursor, caps)) := by
  have hfail : ∀ fuel (i : List Char) (caps : Caps), capsOK caps →
      match_subpattern (fuel + 1) (.BackReference 0) i caps = some (false, i, caps) := by
    intro fuel i caps hcaps
    rw [subpat_backreference, capsOK_get_zero hcaps]
  refine ⟨rfl, capsOK_nil, ?_, ?_, hfail, ?_⟩
  · intro fuel p i caps b cur k hcaps h
    exact (matcher_capsOK fuel).1 p i caps b cur k hcaps h
  · intro fuel cursor patterns fst st caps b cur k hcaps h
    exact (matcher_capsOK fuel).2.2.1 cursor patterns fst st caps b cur k hcaps h
  · intro fuel cursor rest fst st caps hcaps
    rw [mfcp_backreference, hfail fuel cursor caps hcaps]

/-- C1 (counterexample to the claim as stated): on the empty line the
anchor-free pattern `a?` compiles to a sequence that matches at offset 0
(consuming nothing), yet `match_pattern` returns `false`, because the offset
loop only tries offsets with at least one remaining character and never runs
on the empty remainder. -/
theorem C1_counterexample :
    match_pattern 50 "" "a?" = some false ∧
    starts_with_anchor (parse_pattern "a?".toList) = false ∧
    ends_with_anchor (parse_pattern "a?".toList) = false ∧
    match_from_current_position 50 ([] : List Char) (parse_pattern "a?".toList)
      true false [] = some (true, [], []) := ⟨by decide, rfl, rfl, by decide⟩

/-- C1 (amended): for an anchor-free pattern, a completed `match_pattern` run
returns `true` exactly when the compiled sequence matches at some offset `k`
with `k < input length` — i.e. at some suffix that still has at least one
character, without needing to consume the rest; in particular the empty line
never matches. -/
theorem C1_no_anchor_offset_search (fuel : Nat) (input_line pattern_str : String) (b : Bool)
    (hs : starts_with_anchor (parse_pattern pattern_str.toList) = false)
    (he : ends_with_anchor (parse_pattern pattern_str.toList) = false)
    (h : match_pattern fuel input_line pattern_str = some b) :
    b = true ↔ ∃ k, k < input_line.toList.length ∧ ∃ cur caps,
      match_from_current_position fuel (input_line.toList.drop k)
        (parse_pattern pattern_str.toList) true false [] = some (true, cur, caps) := by
  rw [match_pattern_no_anchors fuel input_line pattern_str hs he] at h
  exact searchNoAnchor_characterization fuel _ input_line.toList [] b h

/-- C1 witness: `\d+` against `"abc123"` matches, and the amended equivalence
holds there. -/
theorem C1_witness :
    match_pattern 100 "abc123" "\\d+" = some true ∧
    (true = true ↔ ∃ k, k < "abc123".toList.length ∧ ∃ cur caps,
      match_from_current_position 100 ("abc123".toList.drop k)
        (parse_pattern "\\d+".toList) true false [] = some (true, cur, caps)) :=
  ⟨by decide, C1_no_anchor_offset_search 100 "abc123" "\\d+" true rfl rfl (by decide)⟩

/-- C2 (counterexample to the claim as stated): in `((a)b)` against `"ab"`,
when the outer capturing group succeeds the capture table already holds the
inner capture `1 ↦ "a"` (one entry), so the claimed rule — index = number of
groups captured so far at the moment of success, plus one — demands index 2;
the code instead stores the outer text `"ab"` at index 1, computed from the
table size at the moment the group was entered, overwriting the inner
capture: the final table is `{1 ↦ "ab"}` and index 2 is unbound. -/
theorem C2_counterexample :
    parse_pattern "((a)b)".toList =
      [.Group [.Alternation [.Group [.Group [.Alternation [.Group [.Literal ['a']]]],
        .Literal ['b']]]]] ∧
    match_from_current_position 60 "ab".toList
      [.Group [.Alternation [.Group [.Literal ['a']]]], .Literal ['b']] true false [] =
      some (true, [], [(1, ['a'])]) ∧
    match_subpattern 60 (.Group [.Group [.Alternation [.Group [.Literal ['a']]]],
      .Literal ['b']]) "ab".toList [] = some (true, [], [(1, ['a', 'b'])]) ∧
    match_from_current_position 100 "ab".toList (parse_pattern "((a)b)".toList)
      true false [] = some (true, [], [(1, ['a', 'b'])]) ∧
    capsGet [(1, ['a', 'b'])] 2 = none ∧
    capsGet [(1, ['a', 'b'])] 1 = some ['a', 'b'] :=
  ⟨rfl, by decide, by decide, by decide, rfl, rfl⟩

/-- C2 (amended): when a `Group` node's sub-sequence matches, the consumed
substring is recorded under the index "one greater than the number of groups
captured at the moment the group's evaluation *begins*" — the table size is
read before the body runs, so captures made inside the body do not shift the
group's own index (and can be overwritten by it).  The second conjunct pins
down "the consumed substring": when the final cursor is a suffix of the
input, the recorded text is exactly the consumed prefix. -/
theorem C2_group_capture_entry_index :
    (∀ fuel (subs : List Pattern) (input : List Char) (caps : Caps) (cur2 : List Char)
      (capsOut : Caps),
      match_subpattern (fuel + 1) (.Group subs) input caps = some (true, cur2, capsOut) →
      ∃ capsBody, match_from_current_position fuel input subs true false caps =
          some (true, cur2, capsBody) ∧
        capsOut = capsInsert capsBody (caps.length + 1) (extract_captured input cur2)) ∧
    (∀ pre s : List Char, extract_captured (pre ++ s) s = pre) := by
  refine ⟨?_, extract_captured_append⟩
  intro fuel subs input caps cur2 capsOut h
  rw [subpat_group] at h
  cases hm : match_from_current_position fuel input subs true false caps with
  | none => rw [hm] at h; exact absurd h (by simp)
  | some r2 =>
    obtain ⟨b2, curx, capsx⟩ := r2
    rw [hm] at h
    cases b2 with
    | false => dsimp only at h; exact absurd h (by simp)
    | true =>
      dsimp only at h
      simp only [Option.some.injEq, Prod.mk.injEq, true_and] at h
      obtain ⟨h1, h2⟩ := h
      subst h1
      exact ⟨capsx, rfl, h2.symm⟩

/-- C2 witness: a simple group `(a)` on `"ab"`: entered with an empty table,
its capture lands at index 1 and the decomposition of the amended claim holds. -/
theorem C2_witness :
    match_subpattern 50 (.Group [.Literal ['a']]) "ab".toList [] =
      some (true, ['b'], [(1, ['a'])]) ∧
    (∃ capsBody, match_from_current_position 49 "ab".toList [.Literal ['a']] true false [] =
        some (true, ['b'], capsBody) ∧
      ([(1, ['a'])] : Caps) = capsInsert capsBody (List.length ([] : Caps) + 1)
        (extract_captured "ab".toList ['b'])) :=
  ⟨by decide, C2_group_capture_entry_index.1 49 [.Literal ['a']] "ab".toList [] ['b']
    [(1, ['a'])] (by decide)⟩

/-- C3 (counterexample to the claim as stated): for P = `"+"`, the claim
demands that `match("+", "^+$")` be true because the compiled sequence for
`"+"` (the literal `+`) consumes the input `"+"` exactly from offset 0; but
`"^+$"` compiles to `[OneOrMore Start, End]` (the dangling `+` swallows the
`Start` node), which fails on every input, so the match returns false. -/
theorem C3_counterexample :
    match_pattern 100 "+" "^+$" = some false ∧
    parse_pattern "^+$".toList = [.OneOrMore .Start, .End] ∧
    parse_pattern "+".toList = [.Literal ['+']] ∧
    match_from_current_position 50 "+".toList (parse_pattern "+".toList) true true [] =
      some (true, [], []) := ⟨by decide, rfl, rfl, by decide⟩

/-- C3 (amended): for every pattern `P` whose compilation composes — i.e.
`"^P$"` compiles to `Start :: (compiled P) ++ [End]` and the compiled `P`
contains no top-level anchor node — `match(input, "^P$")` is true iff the
compiled sequence for `P` consumes the input exactly, end to end, from
offset 0 (first conjunct); exactly one alignment, at position 0 with the
line-start flag set, is attempted (second conjunct); and an `End` node
succeeds only when it is the last node and no input remains (third
conjunct). -/
theorem C3_anchored_exact (input_line P : String)
    (hparse : parse_pattern ("^" ++ P ++ "$").toList =
      .Start :: parse_pattern P.toList ++ [.End])
    (hno : ∀ p ∈ parse_pattern P.toList, p ≠ .Start ∧ p ≠ .End) :
    (Matches input_line ("^" ++ P ++ "$") true ↔
      ∃ caps, SeqRuns input_line.toList (parse_pattern P.toList) true true []
        (true, [], caps)) ∧
    (∀ fuel b, match_pattern fuel input_line ("^" ++ P ++ "$") = some b ↔
      ∃ cur caps, match_from_current_position fuel input_line.toList
        (parse_pattern ("^" ++ P ++ "$").toList) true true [] = some (b, cur, caps)) ∧
    (∀ fuel (cursor : List Char) (rest : List Pattern) (fst st : Bool) (caps : Caps),
      ¬(rest = [] ∧ cursor = []) →
      match_from_current_position (fuel + 1) cursor (.End :: rest) fst st caps =
        some (false, cursor, caps)) := by
  have hs : starts_with_anchor (parse_pattern ("^" ++ P ++ "$").toList) = true := by
    rw [hparse]; rfl
  have he : ends_with_anchor (parse_pattern ("^" ++ P ++ "$").toList) = true := by
    rw [hparse]
    show ends_with_anchor ((.Start :: parse_pattern P.toList) ++ [.End]) = true
    exact ends_with_anchor_concat _
  have hsingle : ∀ fuel b, match_pattern fuel input_line ("^" ++ P ++ "$") = some b ↔
      ∃ cur caps, match_from_current_position fuel input_line.toList
        (parse_pattern ("^" ++ P ++ "$").toList) true true [] = some (b, cur, caps) := by
    intro fuel b
    rw [match_pattern_both_anchors fuel input_line _ hs he]
    exact option_map_fst_eq_some
  have hendlaw : ∀ fuel (cursor : List Char) (rest : List Pattern) (fst st : Bool)
      (caps : Caps), ¬(rest = [] ∧ cursor = []) →
      match_from_current_position (fuel + 1) cursor (.End :: rest) fst st caps =
        some (false, cursor, caps) := by
    intro fuel cursor rest fst st caps hcond
    rw [mfcp_end]
    have hfalse : (rest.isEmpty && cursor.isEmpty) = false := by
      by_cases h1 : rest = []
      · have h2 : cursor ≠ [] := fun hc => hcond ⟨h1, hc⟩
        simp [h1, List.isEmpty_iff, h2]
      · simp [List.isEmpty_iff, h1]
    rw [hfalse]
    simp only [Bool.false_eq_true, if_false]
  refine ⟨?_, hsingle, hendlaw⟩
  constructor
  · rintro ⟨fuel, hm⟩
    obtain ⟨cur, caps, hrun⟩ := (hsingle fuel true).mp hm
    rw [hparse] at hrun
    cases fuel with
    | zero => rw [mfcp_zero] at hrun; exact absurd hrun (by simp)
    | succ g =>
      have hstep := mfcp_start g input_line.toList (parse_pattern P.toList ++ [.End])
        true true []
      rw [if_pos (show (true && true) = true by rfl)] at hstep
      have hrun2 : match_from_current_position g input_line.toList
          (parse_pattern P.toList ++ [.End]) false true [] = some (true, cur, caps) :=
        hstep.symm.trans hrun
      obtain ⟨h1, h2⟩ := mfcp_append_end_forward g (parse_pattern P.toList) hno
        input_line.toList [] false true cur caps hrun2
      subst h2
      refine ⟨caps, g, ?_⟩
      rw [mfcp_flags_irrelevant g (parse_pattern P.toList) hno input_line.toList []
        true true false true]
      exact h1
  · rintro ⟨caps, g, hrun⟩
    rw [mfcp_flags_irrelevant g (parse_pattern P.toList) hno input_line.toList []
      true true false true] at hrun
    have hb := mfcp_append_end_backward g (parse_pattern P.toList) hno
      input_line.toList [] false true caps hrun
    refine ⟨g + 2, ?_⟩
    apply (hsingle (g + 2) true).mpr
    refine ⟨[], caps, ?_⟩
    rw [hparse]
    have hstep := mfcp_start (g + 1) input_line.toList (parse_pattern P.toList ++ [.End])
      true true []
    rw [if_pos (show (true && true) = true by rfl)] at hstep
    exact hstep.trans hb

/-- C3 witness: P = `"abc"`, input `"abc"`: the compilation composes and the
anchored equivalence holds. -/
theorem C3_witness :
    (parse_pattern ("^" ++ "abc" ++ "$").toList =
      .Start :: parse_pattern "abc".toList ++ [.End]) ∧
    (Matches "abc" ("^" ++ "abc" ++ "$") true ↔
      ∃ caps, SeqRuns "abc".toList (parse_pattern "abc".toList) true true []
        (true, [], caps)) :=
  ⟨rfl, (C3_anchored_exact "abc" "abc" rfl (by
    intro p hp
    simp only [show parse_pattern "abc".toList = [.Literal ['a', 'b', 'c']] from rfl,
      List.mem_singleton] at hp
    subst hp
    exact ⟨nofun, nofun⟩)).1⟩

/-- C4 witness: `a` fails against `"b"`, so `a+` fails the sequence at once. -/
theorem C4_witness :
    match_subpattern 10 (.Literal ['a']) ['b'] [] = some (false, ['b'], []) ∧
    match_from_current_position 11 ['b'] [.OneOrMore (.Literal ['a'])] true false [] =
      some (false, ['b'], []) :=
  ⟨by decide, C4_oneormore_greedy.1 10 (.Literal ['a']) [] true false ['b'] [] ['b'] []
    (by decide)⟩

/-- C5 witness: a succeeding head branch commits cursor and captures. -/
theorem C5_witness :
    match_subpattern 10 (.Literal ['d']) ['d'] [] = some (true, [], []) ∧
    positionAlternatives 11 [.Literal ['d']] ['d'] [] = some (true, [], []) :=
  ⟨by decide, C5_alternation_ordered.1 10 (.Literal ['d']) [] ['d'] [] [] []
    (by decide)⟩

/-- C6 witness: an unbound index makes the backreference fail in place. -/
theorem C6_witness :
    capsGet [] 5 = none ∧
    match_subpattern 11 (.BackReference 5) ['x'] [] = some (false, ['x'], []) :=
  ⟨rfl, C6_backreference.2.1 10 5 ['x'] [] rfl⟩

/-- C7 witness: the unterminated class `[ab` consumes to the end. -/
theorem C7_witness :
    ']' ∉ ['a', 'b'] ∧
    parse_pattern ['[', 'a', 'b'] = [.CharGroup ['a', 'b'] false] :=
  ⟨by decide, C7_malformed_patterns.2.2.1 ['a', 'b'] (by decide) (by decide)⟩

/-- C8 witness: `a?` with `a` absent proceeds unchanged into the rest. -/
theorem C8_witness :
    match_subpattern 10 (.Literal ['a']) ['b'] [] = some (false, ['b'], []) ∧
    (match_from_current_position 11 ['b'] [.ZeroOrOne (.Literal ['a']), .Literal ['b']]
        true false [] =
      match_from_current_position 10 ['b'] [.Literal ['b']] false false [] ∧
      (false = false → ['b'] = ['b'])) :=
  ⟨by decide, C8_zeroorone.1 10 (.Literal ['a']) [.Literal ['b']] true false ['b'] []
    false ['b'] [] (by decide)⟩

/-- C10 witness: in the reachable table `{1 ↦ "a"}` the node `\0` fails. -/
theorem C10_witness :
    capsOK [(1, ['a'])] ∧
    match_subpattern 11 (.BackReference 0) ['x'] [(1, ['a'])] =
      some (false, ['x'], [(1, ['a'])]) := by
  have hok : capsOK [(1, ['a'])] := by
    intro q hq
    rw [List.mem_singleton] at hq
    subst hq
    exact le_refl 1
  exact ⟨hok, C10_backreference_zero.2.2.2.2.1 10 ['x'] [(1, ['a'])] hok⟩
